import Mathlib

/-!
# Verification of the flight_planner route core

Shallow embedding of `flight_planner/flightdef.py` and the route-editing
callbacks of `flight_planner/gui.py`.

Numbers are modelled as rationals (`ℚ`).  The great-circle distance
(`greatcircle` in the source, implemented by `cartopy.geodesic`) is kept
abstract: every definition that needs it takes a distance function
`d : Pt → Pt → ℚ` as an explicit parameter, and theorems assume only the
properties the specification itself asserts of it (symmetry, zero on equal
points).  Concrete instantiations in witnesses use a simple computable
metric.
-/

/-- A geographic position `(lon, lat)` in decimal degrees. -/
abbrev Pt : Type := ℚ × ℚ

/-- One entry of the `airports` configuration dictionary:
`code : [lon, lat, alt]` (`user_config.py`).  Python dicts iterate in
insertion order, so the table is modelled as a list in registration order. -/
structure Airport where
  code : String
  lon : ℚ
  lat : ℚ
  alt : ℚ
deriving DecidableEq, Repr

/-- Position of an airport, as used by `is_near_airport`. -/
def Airport.pos (a : Airport) : Pt := (a.lon, a.lat)

/-- The `WayPoint` class of `flightdef.py` (fields set by `__init__`). -/
structure WayPoint where
  lon : ℚ
  lat : ℚ
  alt : ℚ
  name : String
  desc : String
  legtype : String
deriving DecidableEq, Repr

/-- `WayPoint.pt`: `return self.lon, self.lat`. -/
def WayPoint.pt (w : WayPoint) : Pt := (w.lon, w.lat)

/-- `WayPoint.__init__` default arguments: `alt=0.0, name='NONAME',
desc='', legtype='transit'`; constructing a waypoint performs no
validation of any field. -/
def mkWayPoint (lon lat : ℚ) (alt : ℚ := 0) (name : String := "NONAME")
    (desc : String := "") (legtype : String := "transit") : WayPoint :=
  ⟨lon, lat, alt, name, desc, legtype⟩

/-- `WayPoint_from_airport`: `a = airports[airport];
return WayPoint(a[0], a[1], alt=a[2], name=airport)` — `desc` and
`legtype` take their `__init__` defaults `''` and `'transit'`. -/
def WayPoint_from_airport (a : Airport) : WayPoint :=
  ⟨a.lon, a.lat, a.alt, a.code, "", "transit"⟩

/-- Dictionary lookup `airports[code]` (keys are unique in a Python dict;
on a list we take the first entry with the code). -/
def airports_lookup (airports : List Airport) (c : String) : Option Airport :=
  match airports with
  | [] => none
  | a :: rest => if a.code = c then some a else airports_lookup rest c

/-- `is_near_airport(waypoint, wplock)`: iterate the airport table in
registration order and return the code of the first airport whose
distance to the waypoint is strictly less than `wplock`; `None`
otherwise. -/
def is_near_airport (d : Pt → Pt → ℚ) (airports : List Airport)
    (waypoint : WayPoint) (wplock : ℚ) : Option String :=
  match airports with
  | [] => none
  | a :: rest =>
    if d waypoint.pt a.pos < wplock then some a.code
    else is_near_airport d rest waypoint wplock

/-- `is_near_other_waypoints(waypoint, others, wplock)`: return the index
of the first waypoint of `others` whose distance to `waypoint` is
strictly less than `wplock`; `None` otherwise. -/
def is_near_other_waypoints (d : Pt → Pt → ℚ) (waypoint : WayPoint)
    (others : List WayPoint) (wplock : ℚ) : Option Nat :=
  match others with
  | [] => none
  | o :: rest =>
    if d waypoint.pt o.pt < wplock then some 0
    else (is_near_other_waypoints d waypoint rest wplock).map (· + 1)

/-- `lock_WayPoint(waypoint, wplock)`:
`near_airport = is_near_airport(...)`;
`if near_airport: return WayPoint_from_airport(near_airport)`;
`return waypoint`.  Python truthiness: the branch is taken only when the
returned code is a non-empty string, and `WayPoint_from_airport` then
looks the code up in the table. -/
def lock_WayPoint (d : Pt → Pt → ℚ) (airports : List Airport)
    (waypoint : WayPoint) (wplock : ℚ) : WayPoint :=
  match is_near_airport d airports waypoint wplock with
  | none => waypoint
  | some c =>
    if c = "" then waypoint
    else
      match airports_lookup airports c with
      | some a => WayPoint_from_airport a
      | none => waypoint

/-- `locked_WayPoint(lon, lat, alt, name, desc, legtype, wplock)`:
build a `WayPoint` then lock it to nearby airports. -/
def locked_WayPoint (d : Pt → Pt → ℚ) (airports : List Airport)
    (lon lat alt : ℚ) (name desc legtype : String) (wplock : ℚ) : WayPoint :=
  lock_WayPoint d airports ⟨lon, lat, alt, name, desc, legtype⟩ wplock

/-- The registered airport table of `user_config.py`:
`{'CRAN': [-0.616667, 52.0722, 358], 'INN': [11.343889, 47.260278, 1906]}`. -/
def airportsTeamX : List Airport :=
  [⟨"CRAN", -616667/1000000, 520722/10000, 358⟩,
   ⟨"INN", 11343889/1000000, 47260278/1000000, 1906⟩]

/-- A concrete stand-in distance function used by witnesses and
counterexamples: squared Euclidean distance in degree coordinates.  It
satisfies the metric facts the theorems assume (symmetric, zero on equal
points) and is easy to evaluate. -/
def dSq (p q : Pt) : ℚ := (p.1 - q.1) ^ 2 + (p.2 - q.2) ^ 2

-- Basic facts about the concrete witness metric.
theorem dSq_self (p : Pt) : dSq p p = 0 := by
  simp [dSq]

theorem dSq_symm (p q : Pt) : dSq p q = dSq q p := by
  simp only [dSq]
  ring

/-! ## Characterization of the proximity searches -/

theorem near_airport_none_iff (d : Pt → Pt → ℚ) (wp : WayPoint) (tol : ℚ) :
    ∀ as : List Airport,
      (is_near_airport d as wp tol = none ↔ ∀ a ∈ as, ¬ d wp.pt a.pos < tol) := by
  intro as
  induction as with
  | nil => simp [is_near_airport]
  | cons a rest ih =>
    by_cases h : d wp.pt a.pos < tol
    · simp [is_near_airport, h]
    · simp only [is_near_airport, if_neg h, ih]
      constructor
      · intro hall b hb
        rcases List.mem_cons.mp hb with rfl | hb'
        · exact h
        · exact hall b hb'
      · intro hall b hb
        exact hall b (List.mem_cons_of_mem _ hb)

theorem near_airport_some_iff (d : Pt → Pt → ℚ) (wp : WayPoint) (tol : ℚ) :
    ∀ (as : List Airport) (c : String),
      (is_near_airport d as wp tol = some c ↔
        ∃ k, ∃ hk : k < as.length,
          (as.get ⟨k, hk⟩).code = c ∧ d wp.pt (as.get ⟨k, hk⟩).pos < tol ∧
          ∀ j, ∀ hj : j < as.length, j < k → ¬ d wp.pt (as.get ⟨j, hj⟩).pos < tol) := by
  intro as
  induction as with
  | nil => simp [is_near_airport]
  | cons a rest ih =>
    intro c
    by_cases h : d wp.pt a.pos < tol
    · simp only [is_near_airport, if_pos h]
      constructor
      · intro hc
        refine ⟨0, by simp, ?_, by simpa using h, ?_⟩
        · simpa using (Option.some_injective _ hc)
        · intro j hj hj0; omega
      · rintro ⟨k, hk, hcode, _, hfirst⟩
        cases k with
        | zero => simpa using congrArg some hcode
        | succ k' =>
          exact absurd h (by simpa using hfirst 0 (by simp) (Nat.succ_pos _))
    · simp only [is_near_airport, if_neg h]
      rw [ih c]
      constructor
      · rintro ⟨k, hk, hcode, hnear, hfirst⟩
        refine ⟨k + 1, by simpa using Nat.succ_lt_succ hk, by simpa using hcode,
          by simpa using hnear, ?_⟩
        intro j hj hjk
        cases j with
        | zero => simpa using h
        | succ j' =>
          have hj' : j' < rest.length := by simpa using Nat.lt_of_succ_lt_succ hj
          simpa using hfirst j' hj' (Nat.lt_of_succ_lt_succ hjk)
      · rintro ⟨k, hk, hcode, hnear, hfirst⟩
        cases k with
        | zero => exact absurd (by simpa using hnear) h
        | succ k' =>
          have hk' : k' < rest.length := by simpa using Nat.lt_of_succ_lt_succ hk
          refine ⟨k', hk', by simpa using hcode, by simpa using hnear, ?_⟩
          intro j hj hjk
          have hj1 : j + 1 < (a :: rest).length := by simpa using Nat.succ_lt_succ hj
          simpa using hfirst (j + 1) hj1 (Nat.succ_lt_succ hjk)

theorem near_others_none_iff (d : Pt → Pt → ℚ) (wp : WayPoint) (tol : ℚ) :
    ∀ others : List WayPoint,
      (is_near_other_waypoints d wp others tol = none ↔
        ∀ o ∈ others, ¬ d wp.pt o.pt < tol) := by
  intro others
  induction others with
  | nil => simp [is_near_other_waypoints]
  | cons o rest ih =>
    by_cases h : d wp.pt o.pt < tol
    · simp [is_near_other_waypoints, h]
    · simp only [is_near_other_waypoints, if_neg h, Option.map_eq_none', ih]
      constructor
      · intro hall b hb
        rcases List.mem_cons.mp hb with rfl | hb'
        · exact h
        · exact hall b hb'
      · intro hall b hb
        exact hall b (List.mem_cons_of_mem _ hb)

theorem near_others_some_iff (d : Pt → Pt → ℚ) (wp : WayPoint) (tol : ℚ) :
    ∀ (others : List WayPoint) (i : Nat),
      (is_near_other_waypoints d wp others tol = some i ↔
        ∃ hi : i < others.length,
          d wp.pt (others.get ⟨i, hi⟩).pt < tol ∧
          ∀ j, ∀ hj : j < others.length, j < i → ¬ d wp.pt (others.get ⟨j, hj⟩).pt < tol) := by
  intro others
  induction others with
  | nil => simp [is_near_other_waypoints]
  | cons o rest ih =>
    intro i
    by_cases h : d wp.pt o.pt < tol
    · simp only [is_near_other_waypoints, if_pos h]
      constructor
      · intro hc
        have hi0 : i = 0 := by simpa using (Option.some_injective _ hc).symm
        subst hi0
        exact ⟨by simp, by simpa using h, by intro j hj hj0; omega⟩
      · rintro ⟨hi, hnear, hfirst⟩
        cases i with
        | zero => rfl
        | succ i' =>
          exact absurd h (by simpa using hfirst 0 (by simp) (Nat.succ_pos _))
    · simp only [is_near_other_waypoints, if_neg h]
      constructor
      · intro hc
        rcases Option.map_eq_some'.mp hc with ⟨i', hi', rfl⟩
        rcases (ih i').mp hi' with ⟨hlt, hnear, hfirst⟩
        refine ⟨by simpa using Nat.succ_lt_succ hlt, by simpa using hnear, ?_⟩
        intro j hj hjk
        cases j with
        | zero => simpa using h
        | succ j' =>
          have hj'' : j' < rest.length := by simpa using Nat.lt_of_succ_lt_succ hj
          simpa using hfirst j' hj'' (Nat.lt_of_succ_lt_succ hjk)
      · rintro ⟨hi, hnear, hfirst⟩
        cases i with
        | zero => exact absurd (by simpa using hnear) h
        | succ i' =>
          have hi' : i' < rest.length := by simpa using Nat.lt_of_succ_lt_succ hi
          have : is_near_other_waypoints d wp rest tol = some i' := by
            refine (ih i').mpr ⟨hi', by simpa using hnear, ?_⟩
            intro j hj hjk
            have hj1 : j + 1 < (o :: rest).length := by simpa using Nat.succ_lt_succ hj
            simpa using hfirst (j + 1) hj1 (Nat.succ_lt_succ hjk)
          simp [this]

/-- C6: the airport proximity search scans the registered airports in
registration order and returns the first airport strictly within the
tolerance (none if no airport qualifies), regardless of whether a later
airport is nearer; the waypoint search obeys the same first-match rule,
returning the index of the first qualifying waypoint of the supplied
list. -/
theorem C6_first_match_proximity (d : Pt → Pt → ℚ) (as : List Airport)
    (wp : WayPoint) (others : List WayPoint) (tol : ℚ) :
    (∀ c, is_near_airport d as wp tol = some c ↔
      ∃ k, ∃ hk : k < as.length,
        (as.get ⟨k, hk⟩).code = c ∧ d wp.pt (as.get ⟨k, hk⟩).pos < tol ∧
        ∀ j, ∀ hj : j < as.length, j < k → ¬ d wp.pt (as.get ⟨j, hj⟩).pos < tol) ∧
    (is_near_airport d as wp tol = none ↔ ∀ a ∈ as, ¬ d wp.pt a.pos < tol) ∧
    (∀ i, is_near_other_waypoints d wp others tol = some i ↔
      ∃ hi : i < others.length,
        d wp.pt (others.get ⟨i, hi⟩).pt < tol ∧
        ∀ j, ∀ hj : j < others.length, j < i → ¬ d wp.pt (others.get ⟨j, hj⟩).pt < tol) ∧
    (is_near_other_waypoints d wp others tol = none ↔
      ∀ o ∈ others, ¬ d wp.pt o.pt < tol) :=
  ⟨near_airport_some_iff d wp tol as, near_airport_none_iff d wp tol as,
   near_others_some_iff d wp tol others, near_others_none_iff d wp tol others⟩

/-! ## Locking to airports (C1, C9) -/

theorem lookup_mem_of_nodup : ∀ (as : List Airport) (a : Airport),
    (as.map Airport.code).Nodup → a ∈ as → airports_lookup as a.code = some a := by
  intro as
  induction as with
  | nil => intro a _ ha; cases ha
  | cons b rest ih =>
    intro a hnodup ha
    rcases List.mem_cons.mp ha with rfl | ha'
    · simp [airports_lookup]
    · have hbne : b.code ≠ a.code := by
        intro hcontra
        have : a.code ∈ rest.map Airport.code := List.mem_map_of_mem _ ha'
        have hnotin := (List.nodup_cons.mp hnodup).1
        exact hnotin (hcontra ▸ this)
      have hrest := ih a (List.nodup_cons.mp hnodup).2 ha'
      simp [airports_lookup, hbne, hrest]

theorem near_at_airport_pos (d : Pt → Pt → ℚ) (tol : ℚ)
    (hdself : ∀ p : Pt, d p p = 0) (hsym : ∀ p q : Pt, d p q = d q p)
    (htol : 0 < tol) :
    ∀ (as : List Airport) (a : Airport) (w : WayPoint),
      as.Pairwise (fun x y => ¬ d x.pos y.pos < tol) → a ∈ as → w.pt = a.pos →
      is_near_airport d as w tol = some a.code := by
  intro as
  induction as with
  | nil => intro a w _ ha _; cases ha
  | cons b rest ih =>
    intro a w hpair ha hpt
    rcases List.mem_cons.mp ha with rfl | ha'
    · have : d w.pt a.pos < tol := by rw [hpt, hdself]; exact htol
      simp [is_near_airport, this]
    · have hmiss : ¬ d w.pt b.pos < tol := by
        have hsep := (List.pairwise_cons.mp hpair).1 a ha'
        rw [hpt, hsym]
        exact hsep
      have hrest := ih a w (List.pairwise_cons.mp hpair).2 ha' hpt
      simp [is_near_airport, hmiss, hrest]

/-- C9 (as stated, with the spec's own facts about the distance function
and the registered table as hypotheses: distance is symmetric and zero on
equal points, the tolerance is positive, airport codes are distinct and
non-empty, and no two registered airports lie within the tolerance of
each other — true of the registered table, whose two airports are
~1040 km apart): locking is idempotent, and locking any waypoint already
at an airport's canonical position yields that airport's waypoint. -/
theorem C9_lock_idempotent (d : Pt → Pt → ℚ) (as : List Airport) (tol : ℚ)
    (wp : WayPoint)
    (hdself : ∀ p : Pt, d p p = 0) (hsym : ∀ p q : Pt, d p q = d q p)
    (htol : 0 < tol)
    (hcodes : ∀ a ∈ as, a.code ≠ "")
    (hnodup : (as.map Airport.code).Nodup)
    (hsep : as.Pairwise (fun x y => ¬ d x.pos y.pos < tol)) :
    lock_WayPoint d as (lock_WayPoint d as wp tol) tol = lock_WayPoint d as wp tol ∧
    ∀ a ∈ as, ∀ w : WayPoint, w.pt = a.pos →
      lock_WayPoint d as w tol = WayPoint_from_airport a := by
  have hat : ∀ a ∈ as, ∀ w : WayPoint, w.pt = a.pos →
      lock_WayPoint d as w tol = WayPoint_from_airport a := by
    intro a ha w hpt
    have hnear := near_at_airport_pos d tol hdself hsym htol as a w hsep ha hpt
    have hlook := lookup_mem_of_nodup as a hnodup ha
    simp [lock_WayPoint, hnear, hcodes a ha, hlook]
  refine ⟨?_, hat⟩
  rcases hc : is_near_airport d as wp tol with _ | c
  · simp [lock_WayPoint, hc]
  · by_cases hce : c = ""
    · simp [lock_WayPoint, hc, hce]
    · rcases (near_airport_some_iff d wp tol as c).mp hc with ⟨k, hk, hcode, hnear, _⟩
      have hmem : as.get ⟨k, hk⟩ ∈ as := List.get_mem as k hk
      have hlook : airports_lookup as c = some (as.get ⟨k, hk⟩) := by
        rw [← hcode]; exact lookup_mem_of_nodup as _ hnodup hmem
      have hfirst : lock_WayPoint d as wp tol = WayPoint_from_airport (as.get ⟨k, hk⟩) := by
        simp [lock_WayPoint, hc, hce, hlook]
      rw [hfirst]
      exact hat (as.get ⟨k, hk⟩) hmem _ rfl

/-- Witness for C9: the registered table with a concrete metric and a
concrete waypoint; all hypotheses hold by computation. -/
theorem C9_lock_idempotent_witness :
    lock_WayPoint dSq airportsTeamX
      (lock_WayPoint dSq airportsTeamX ⟨0, 0, 0, "P", "", "transit"⟩ 100) 100 =
      lock_WayPoint dSq airportsTeamX ⟨0, 0, 0, "P", "", "transit"⟩ 100 ∧
    ∀ a ∈ airportsTeamX, ∀ w : WayPoint, w.pt = a.pos →
      lock_WayPoint dSq airportsTeamX w 100 = WayPoint_from_airport a :=
  C9_lock_idempotent dSq airportsTeamX 100 ⟨0, 0, 0, "P", "", "transit"⟩
    dSq_self dSq_symm (by norm_num)
    (by intro a ha; fin_cases ha <;> simp [airportsTeamX])
    (by simp [airportsTeamX])
    (by
      simp only [airportsTeamX, List.pairwise_cons, List.mem_singleton,
        List.mem_nil_iff]
      refine ⟨fun y hy => ?_, fun y hy => absurd hy (by simp), List.Pairwise.nil⟩
      subst hy
      norm_num [dSq, Airport.pos])

/-- C1 (amended): for every waypoint and tolerance, over a table whose
codes are distinct and non-empty (true of the registered table): if some
registered airport lies strictly within the tolerance, `lock_WayPoint`
returns a new WayPoint whose position, altitude and name are the
canonical values of the first such airport in registration order, with
description reset to empty and leg-type reset to the default
`"transit"` — the input's description and leg-type are NOT carried over;
if no airport is within the tolerance, it returns the input unchanged. -/
theorem C1_lock_canonical (d : Pt → Pt → ℚ) (as : List Airport)
    (wp : WayPoint) (tol : ℚ)
    (hcodes : ∀ a ∈ as, a.code ≠ "")
    (hnodup : (as.map Airport.code).Nodup) :
    ((∃ a ∈ as, d wp.pt a.pos < tol) →
      ∃ k, ∃ hk : k < as.length,
        d wp.pt (as.get ⟨k, hk⟩).pos < tol ∧
        (∀ j, ∀ hj : j < as.length, j < k → ¬ d wp.pt (as.get ⟨j, hj⟩).pos < tol) ∧
        lock_WayPoint d as wp tol =
          ⟨(as.get ⟨k, hk⟩).lon, (as.get ⟨k, hk⟩).lat, (as.get ⟨k, hk⟩).alt,
           (as.get ⟨k, hk⟩).code, "", "transit"⟩) ∧
    ((∀ a ∈ as, ¬ d wp.pt a.pos < tol) → lock_WayPoint d as wp tol = wp) := by
  constructor
  · intro hex
    rcases hc : is_near_airport d as wp tol with _ | c
    · rcases hex with ⟨a, ha, hna⟩
      exact absurd hna ((near_airport_none_iff d wp tol as).mp hc a ha)
    · rcases (near_airport_some_iff d wp tol as c).mp hc with ⟨k, hk, hcode, hnear, hfirst⟩
      refine ⟨k, hk, hnear, hfirst, ?_⟩
      have hmem : as.get ⟨k, hk⟩ ∈ as := List.get_mem as k hk
      have hce : c ≠ "" := hcode ▸ hcodes _ hmem
      have hlook : airports_lookup as c = some (as.get ⟨k, hk⟩) := by
        rw [← hcode]; exact lookup_mem_of_nodup as _ hnodup hmem
      simp [lock_WayPoint, hc, hce, hlook, WayPoint_from_airport]
  · intro hnone
    have hc : is_near_airport d as wp tol = none :=
      (near_airport_none_iff d wp tol as).mpr hnone
    simp [lock_WayPoint, hc]

/-- Witness for C1's amended theorem: concrete metric, the registered
table, a concrete waypoint; the hypotheses hold by computation. -/
theorem C1_lock_canonical_witness :
    ((∃ a ∈ airportsTeamX,
        dSq (WayPoint.pt ⟨0, 0, 0, "N", "", "transit"⟩) a.pos < 10) →
      ∃ k, ∃ hk : k < airportsTeamX.length,
        dSq (WayPoint.pt ⟨0, 0, 0, "N", "", "transit"⟩)
          (airportsTeamX.get ⟨k, hk⟩).pos < 10 ∧
        (∀ j, ∀ hj : j < airportsTeamX.length, j < k →
          ¬ dSq (WayPoint.pt ⟨0, 0, 0, "N", "", "transit"⟩)
              (airportsTeamX.get ⟨j, hj⟩).pos < 10) ∧
        lock_WayPoint dSq airportsTeamX ⟨0, 0, 0, "N", "", "transit"⟩ 10 =
          ⟨(airportsTeamX.get ⟨k, hk⟩).lon, (airportsTeamX.get ⟨k, hk⟩).lat,
           (airportsTeamX.get ⟨k, hk⟩).alt, (airportsTeamX.get ⟨k, hk⟩).code,
           "", "transit"⟩) ∧
    ((∀ a ∈ airportsTeamX,
        ¬ dSq (WayPoint.pt ⟨0, 0, 0, "N", "", "transit"⟩) a.pos < 10) →
      lock_WayPoint dSq airportsTeamX ⟨0, 0, 0, "N", "", "transit"⟩ 10 =
        ⟨0, 0, 0, "N", "", "transit"⟩) :=
  C1_lock_canonical dSq airportsTeamX ⟨0, 0, 0, "N", "", "transit"⟩ 10
    (by intro a ha; fin_cases ha <;> simp [airportsTeamX])
    (by simp [airportsTeamX])

/-- Counterexample to C1 as stated: a waypoint sitting exactly at CRAN's
canonical position with leg-type `"science"` is within tolerance of a
registered airport, yet the locked waypoint's leg-type is `"transit"`,
not the input's leg-type — so the leg-type is not carried over. -/
theorem C1_counterexample :
    (∃ a ∈ airportsTeamX,
      dSq (WayPoint.pt ⟨-616667/1000000, 520722/10000, 5000, "B", "hi", "science"⟩)
        a.pos < 10) ∧
    (lock_WayPoint dSq airportsTeamX
        ⟨-616667/1000000, 520722/10000, 5000, "B", "hi", "science"⟩ 10).legtype
      = "transit" ∧
    (lock_WayPoint dSq airportsTeamX
        ⟨-616667/1000000, 520722/10000, 5000, "B", "hi", "science"⟩ 10).desc
      = "" ∧
    ("transit" : String) ≠ "science" ∧ ("" : String) ≠ "hi" := by
  have hnear : dSq (WayPoint.pt ⟨-616667/1000000, 520722/10000, 5000, "B", "hi", "science"⟩)
      (Airport.pos ⟨"CRAN", -616667/1000000, 520722/10000, 358⟩) < 10 := by
    norm_num [dSq, WayPoint.pt, Airport.pos]
  have hlock : lock_WayPoint dSq airportsTeamX
      ⟨-616667/1000000, 520722/10000, 5000, "B", "hi", "science"⟩ 10 =
      ⟨-616667/1000000, 520722/10000, 358, "CRAN", "", "transit"⟩ := by
    simp only [lock_WayPoint, is_near_airport, airportsTeamX, if_pos hnear]
    have hne : ("CRAN" : String) ≠ "" := by decide
    simp [hne, airports_lookup, WayPoint_from_airport]
  refine ⟨⟨⟨"CRAN", -616667/1000000, 520722/10000, 358⟩, by simp [airportsTeamX], hnear⟩,
    by rw [hlock], by rw [hlock], by simp, by simp⟩

/-! ## Unit conversions (C4) and leg metrics (C8) -/

/-- `km2nm(dist)`: `return dist / 1.852`. -/
def km2nm (dist : ℚ) : ℚ := dist / 1.852

/-- `nm2km(dist)`: `return dist * 1.852`. -/
def nm2km (dist : ℚ) : ℚ := dist * 1.852

/-- `ft2m(alt)`: `return alt / 0.3048` (sic — the source divides). -/
def ft2m (alt : ℚ) : ℚ := alt / 0.3048

/-- `m2ft(alt)`: `return alt * 0.3048` (sic — the source multiplies). -/
def m2ft (alt : ℚ) : ℚ := alt * 0.3048

/-- C4: evaluating the source conversions.  `km2nm` matches the claimed
`nm = km / 1.852`, but `ft2m` divides by 0.3048 instead of multiplying:
`ft2m 1 = 10000/3048 ≈ 3.2808`, not the claimed `0.3048` — converting
1 ft must give 0.3048 m, so the code contradicts its own `Convert ft to
m` comment.  Both are pure functions of their argument by definition. -/
theorem C4_conversions_eval :
    (∀ q : ℚ, km2nm q = q / 1.852) ∧ km2nm 1.852 = 1 ∧
    ft2m 1 = 10000 / 3048 ∧ ft2m 1 ≠ (0.3048 : ℚ) ∧
    (∀ q : ℚ, ft2m q = q / 0.3048) := by
  refine ⟨fun q => rfl, by norm_num [km2nm], by norm_num [ft2m],
    by norm_num [ft2m], fun q => rfl⟩

/-- Lookup in the `legtype_spds` dictionary (`self.legtype_spds[...]`). -/
def spds_lookup (spds : List (String × ℚ)) (k : String) : Option ℚ :=
  match spds with
  | [] => none
  | (s, v) :: rest => if s = k then some v else spds_lookup rest k

/-- `FlightDef.leg_dist(leg)`: `greatcircle(leg[0].pt(), leg[1].pt())`. -/
def leg_dist (d : Pt → Pt → ℚ) (leg : WayPoint × WayPoint) : ℚ :=
  d leg.1.pt leg.2.pt

/-- `FlightDef.leg_time(leg)`:
`km2nm(self.leg_dist(leg)) / self.legtype_spds[leg[0].legtype]`.
The only error is the `KeyError` when the leg-type is absent from the
table (modelled as `none`).  The dividend is a NumPy `float64`
(`greatcircle` returns `geodesic.inverse(...)[0, 0] * 1e-3`), so a zero
table speed does not raise: NumPy division by zero yields `inf` with a
`RuntimeWarning` under the default error state.  The non-error value is
modelled with total rational division (which returns 0 instead of `inf`
at a zero speed — the claims only concern when an error is raised). -/
def leg_time (d : Pt → Pt → ℚ) (spds : List (String × ℚ))
    (leg : WayPoint × WayPoint) : Option ℚ :=
  match spds_lookup spds leg.1.legtype with
  | none => none
  | some s => some (km2nm (leg_dist d leg) / s)

/-- C8: the leg-time computation errors exactly when the leg's starting
leg-type is absent from the speed table, and the error surfaces at the
leg-metric request; constructing a WayPoint stores any leg-type (and
name) unvalidated and never fails. -/
theorem C8_leg_time_error_iff (d : Pt → Pt → ℚ) (spds : List (String × ℚ))
    (leg : WayPoint × WayPoint) :
    ((leg_time d spds leg).isNone ↔ spds_lookup spds leg.1.legtype = none) ∧
    (∀ lon lat alt name desc legtype,
      (mkWayPoint lon lat alt name desc legtype).legtype = legtype ∧
      (mkWayPoint lon lat alt name desc legtype).name = name) := by
  constructor
  · rcases h : spds_lookup spds leg.1.legtype with _ | s
    · simp [leg_time, h]
    · simp [leg_time, h]
  · intro lon lat alt name desc legtype
    exact ⟨rfl, rfl⟩

/-! ## The Append callback (gui.py `fig_button_press_callback`) -/

/-- The label alphabet `'ABCDEFGHIJKLMNOPQRSTUVWXYZ0123456789'` used at
gui.py:598 and gui.py:470. -/
def labsList : List Char := "ABCDEFGHIJKLMNOPQRSTUVWXYZ0123456789".toList

/-- gui.py:594-597: `npts = len(waypoints) - sum(is_near_airport(wp) is
not None for wp in waypoints)`, i.e. the number of waypoints not within
the lock tolerance of any registered airport. -/
def n_unlocked (d : Pt → Pt → ℚ) (as : List Airport) (wps : List WayPoint)
    (tol : ℚ) : Nat :=
  wps.countP (fun wp => (is_near_airport d as wp tol).isNone)

/-- gui.py:598: `new_wpname = 'ABC…9'[npts] + self.flightdef.name`
(an out-of-range index raises `IndexError`, modelled as `none`). -/
def new_wpname (d : Pt → Pt → ℚ) (as : List Airport) (routeName : String)
    (wps : List WayPoint) (tol : ℚ) : Option String :=
  (labsList.get? (n_unlocked d as wps tol)).map
    (fun ch => String.singleton ch ++ routeName)

/-- gui.py:618-628, the Append branch: if `new_wpname[0] == 'A'` the new
waypoint uses `alt = 1000.0, legtype = 'transit'`; otherwise it takes
`alt`/`legtype` from `waypoints[-1]` (which would raise `IndexError` on
an empty route, modelled as `none`; unreachable because an empty route
always yields label `'A'`).  The waypoint is then built by
`locked_WayPoint` and appended.  `new_wpname[0]` is the chosen alphabet
character since the route name is appended after it. -/
def append_waypoint (d : Pt → Pt → ℚ) (as : List Airport) (routeName : String)
    (wps : List WayPoint) (click : Pt) (tol : ℚ) : Option (List WayPoint) :=
  match labsList.get? (n_unlocked d as wps tol) with
  | none => none
  | some ch =>
    let nm := String.singleton ch ++ routeName
    if ch = 'A' then
      some (wps ++ [locked_WayPoint d as click.1 click.2 1000 nm "" "transit" tol])
    else
      match wps.getLast? with
      | none => none
      | some last =>
        some (wps ++ [locked_WayPoint d as click.1 click.2 last.alt nm "" last.legtype tol])

theorem labs_getq_eq_A_iff (n : Nat) :
    labsList.get? n = some 'A' ↔ n = 0 := by
  constructor
  · intro h
    rcases List.get?_eq_some.mp h with ⟨hn, hget⟩
    have hnodup : labsList.Nodup := by decide
    have h0 : (0 : Nat) < labsList.length := by decide
    have hg0 : labsList.get ⟨0, h0⟩ = 'A' := rfl
    have heq : labsList.get ⟨n, hn⟩ = labsList.get ⟨0, h0⟩ := by rw [hget, hg0]
    have := (List.Nodup.get_inj_iff hnodup).mp heq
    simpa using congrArg Fin.val this
  · rintro rfl
    rfl

/-- C2 (amended): the Append branch applies the first-point special case
(altitude 1000 ft, leg-type `"transit"`, ignoring the route contents)
exactly when every waypoint currently in the route is within the airport
lock tolerance of some registered airport — in particular when the route
is empty, but also for non-empty all-airport routes; only when some
waypoint is not airport-locked does the appended waypoint take its
altitude and leg-type from the route's last waypoint before locking. -/
theorem C2_append_first_point (d : Pt → Pt → ℚ) (as : List Airport)
    (routeName : String) (wps : List WayPoint) (click : Pt) (tol : ℚ)
    (h36 : n_unlocked d as wps tol < 36) :
    (n_unlocked d as wps tol = 0 ↔
      ∀ wp ∈ wps, (is_near_airport d as wp tol).isSome) ∧
    (n_unlocked d as wps tol = 0 →
      append_waypoint d as routeName wps click tol =
        some (wps ++ [locked_WayPoint d as click.1 click.2 1000
          (String.singleton 'A' ++ routeName) "" "transit" tol])) ∧
    (n_unlocked d as wps tol ≠ 0 →
      ∃ last, wps.getLast? = some last ∧
      ∃ ch, ch ≠ 'A' ∧ labsList.get? (n_unlocked d as wps tol) = some ch ∧
        append_waypoint d as routeName wps click tol =
          some (wps ++ [locked_WayPoint d as click.1 click.2 last.alt
            (String.singleton ch ++ routeName) "" last.legtype tol])) := by
  refine ⟨?_, ?_, ?_⟩
  · unfold n_unlocked
    rw [List.countP_eq_zero]
    constructor
    · intro hall wp hwp
      have := hall wp hwp
      simpa [Option.isNone_iff_eq_none, Option.isSome_iff_ne_none] using this
    · intro hall wp hwp
      have := hall wp hwp
      simpa [Option.isNone_iff_eq_none, Option.isSome_iff_ne_none] using this
  · intro h0
    rw [append_waypoint.eq_def, h0]
    rfl
  · intro hne
    have hlen : n_unlocked d as wps tol < labsList.length := by
      have : labsList.length = 36 := by decide
      omega
    have hch : labsList.get? (n_unlocked d as wps tol) =
        some (labsList.get ⟨n_unlocked d as wps tol, hlen⟩) :=
      List.get?_eq_get hlen
    set ch := labsList.get ⟨n_unlocked d as wps tol, hlen⟩ with hchdef
    have hchA : ch ≠ 'A' := by
      intro hcontra
      exact hne (labs_getq_eq_A_iff _ |>.mp (by rw [hch, hcontra]))
    have hwne : wps ≠ [] := by
      intro hcontra
      subst hcontra
      exact hne rfl
    rcases Option.isSome_iff_exists.mp (List.getLast?_isSome.mpr hwne) with ⟨last, hlast⟩
    refine ⟨last, hlast, ch, hchA, hch, ?_⟩
    rw [append_waypoint.eq_def, hch]
    simp only [hchA, if_neg, hlast]
    simp [hchA]

/-- Witness for C2's amended theorem: applied to the empty route. -/
theorem C2_append_first_point_witness :
    (n_unlocked dSq airportsTeamX [] 10 = 0 ↔
      ∀ wp ∈ ([] : List WayPoint), (is_near_airport dSq airportsTeamX wp 10).isSome) ∧
    (n_unlocked dSq airportsTeamX [] 10 = 0 →
      append_waypoint dSq airportsTeamX "X" [] (0, 0) 10 =
        some ([] ++ [locked_WayPoint dSq airportsTeamX 0 0 1000
          (String.singleton 'A' ++ "X") "" "transit" 10])) ∧
    (n_unlocked dSq airportsTeamX [] 10 ≠ 0 →
      ∃ last, ([] : List WayPoint).getLast? = some last ∧
      ∃ ch, ch ≠ 'A' ∧ labsList.get? (n_unlocked dSq airportsTeamX [] 10) = some ch ∧
        append_waypoint dSq airportsTeamX "X" [] (0, 0) 10 =
          some ([] ++ [locked_WayPoint dSq airportsTeamX 0 0 last.alt
            (String.singleton ch ++ "X") "" last.legtype 10])) :=
  C2_append_first_point dSq airportsTeamX "X" [] (0, 0) 10
    (by norm_num [n_unlocked])

/-- Counterexample to C2 as stated: a non-empty route whose single
waypoint sits at CRAN (airport-locked, `alt = 358`, leg-type
`"science"`).  Appending a far-away click still applies the first-point
special case — the appended waypoint gets `alt = 1000` and leg-type
`"transit"` instead of the last waypoint's `358` / `"science"`. -/
theorem C2_counterexample :
    ([⟨-616667/1000000, 520722/10000, 358, "CRAN", "", "science"⟩] :
        List WayPoint) ≠ [] ∧
    append_waypoint dSq airportsTeamX "X"
        [⟨-616667/1000000, 520722/10000, 358, "CRAN", "", "science"⟩] (0, 0) 10 =
      some [⟨-616667/1000000, 520722/10000, 358, "CRAN", "", "science"⟩,
            ⟨0, 0, 1000, "AX", "", "transit"⟩] ∧
    (String.singleton 'A' ++ "X" = "AX") ∧
    ((1000 : ℚ) ≠ 358) ∧ ("transit" : String) ≠ "science" := by
  have hnear : dSq (WayPoint.pt ⟨-616667/1000000, 520722/10000, 358, "CRAN", "", "science"⟩)
      (Airport.pos ⟨"CRAN", -616667/1000000, 520722/10000, 358⟩) < 10 := by
    norm_num [dSq, WayPoint.pt, Airport.pos]
  have hn : is_near_airport dSq airportsTeamX
      ⟨-616667/1000000, 520722/10000, 358, "CRAN", "", "science"⟩ 10 = some "CRAN" := by
    simp [is_near_airport, airportsTeamX, hnear]
  have hn0 : n_unlocked dSq airportsTeamX
      [⟨-616667/1000000, 520722/10000, 358, "CRAN", "", "science"⟩] 10 = 0 := by
    simp [n_unlocked, hn]
  have hfar1 : ¬ dSq (WayPoint.pt ⟨0, 0, 1000, "AX", "", "transit"⟩)
      (Airport.pos ⟨"CRAN", -616667/1000000, 520722/10000, 358⟩) < 10 := by
    norm_num [dSq, WayPoint.pt, Airport.pos]
  have hfar2 : ¬ dSq (WayPoint.pt ⟨0, 0, 1000, "AX", "", "transit"⟩)
      (Airport.pos ⟨"INN", 11343889/1000000, 47260278/1000000, 1906⟩) < 10 := by
    norm_num [dSq, WayPoint.pt, Airport.pos]
  have hfar : is_near_airport dSq airportsTeamX
      ⟨0, 0, 1000, "AX", "", "transit"⟩ 10 = none := by
    simp [is_near_airport, airportsTeamX, hfar1, hfar2]
  refine ⟨by simp, ?_, rfl, by norm_num, by simp⟩
  rw [append_waypoint.eq_def, hn0]
  have hl0 : labsList.get? 0 = some 'A' := rfl
  have hsing : String.singleton 'A' ++ "X" = "AX" := rfl
  rw [hl0]
  simp [hsing, locked_WayPoint, lock_WayPoint, hfar]

/-! ## The drag callback (gui.py `drag_update`) -/

/-- gui.py:714-715: the positions of all waypoints other than the one
being dragged, in route order:
`[wp.pt() for i, wp in enumerate(waypoints) if i != drag_i]`. -/
def drag_others (wps : List WayPoint) (i : Nat) : List Pt :=
  ((wps.enum.filter (fun q => q.1 ≠ i)).map (fun q => q.2.pt))

/-- gui.py:713-717, the snap loop: for each other position in order,
if the current candidate is strictly within `wplock` of it, the
candidate is replaced by that position (and later comparisons use the
replaced candidate). -/
def snap_to_others (d : Pt → Pt → ℚ) (others : List Pt) (p : Pt) (tol : ℚ) : Pt :=
  others.foldl (fun cur q => if d cur q < tol then q else cur) p

/-- gui.py:704-725 `drag_update`: snap the candidate position to the
other waypoints (same tolerance `wplock`), then build a waypoint at the
snapped position carrying the dragged waypoint's `alt`, `name`, `desc`
and `legtype`, lock it to airports via `locked_WayPoint`, and store it
at index `drag_i`.  An out-of-range index would raise `IndexError`
(modelled as `none`). -/
def drag_update (d : Pt → Pt → ℚ) (as : List Airport) (wps : List WayPoint)
    (i : Nat) (p : Pt) (tol : ℚ) : Option (List WayPoint) :=
  match wps[i]? with
  | none => none
  | some orig =>
    let ps := snap_to_others d (drag_others wps i) p tol
    some (wps.set i
      (locked_WayPoint d as ps.1 ps.2 orig.alt orig.name orig.desc orig.legtype tol))

theorem snap_to_others_eq_of_far (d : Pt → Pt → ℚ) (tol : ℚ) :
    ∀ (others : List Pt) (p : Pt), (∀ q ∈ others, ¬ d p q < tol) →
      snap_to_others d others p tol = p := by
  intro others
  induction others with
  | nil => intro p _; rfl
  | cons q rest ih =>
    intro p hfar
    have hq : ¬ d p q < tol := hfar q (List.mem_cons_self q rest)
    have : snap_to_others d (q :: rest) p tol = snap_to_others d rest p tol := by
      simp [snap_to_others, hq]
    rw [this]
    exact ih p (fun r hr => hfar r (List.mem_cons_of_mem _ hr))

theorem snap_to_others_mem (d : Pt → Pt → ℚ) (tol : ℚ) :
    ∀ (others : List Pt) (p : Pt),
      snap_to_others d others p tol = p ∨ snap_to_others d others p tol ∈ others := by
  intro others
  induction others with
  | nil => intro p; left; rfl
  | cons q rest ih =>
    intro p
    by_cases hq : d p q < tol
    · have : snap_to_others d (q :: rest) p tol = snap_to_others d rest q tol := by
        simp [snap_to_others, hq]
      rw [this]
      rcases ih q with h | h
      · right; rw [h]; exact List.mem_cons_self q rest
      · right; exact List.mem_cons_of_mem _ h
    · have : snap_to_others d (q :: rest) p tol = snap_to_others d rest p tol := by
        simp [snap_to_others, hq]
      rw [this]
      rcases ih p with h | h
      · left; exact h
      · right; exact List.mem_cons_of_mem _ h

/-- C5 (amended): while a drag of index `i` is active, each update snaps
the candidate position to the other waypoints using the SAME tolerance
as the airport lock (`wplock`, not a tighter one), then applies airport
locking to a waypoint that carries the original waypoint's name,
description and leg-type at the snapped position (so airport locking may
still replace those with the airport's canonical values), and replaces
waypoint `i` with the result; no other waypoint is modified.  The
snapped position is the original candidate if no other waypoint is
within `wplock` of it, and otherwise one of the other waypoints'
positions. -/
theorem C5_drag_update_spec (d : Pt → Pt → ℚ) (as : List Airport)
    (wps : List WayPoint) (i : Nat) (p : Pt) (tol : ℚ)
    (hi : i < wps.length) :
    ∃ out, drag_update d as wps i p tol = some out ∧
      out.length = wps.length ∧
      (∀ j, j ≠ i → out[j]? = wps[j]?) ∧
      (∀ orig, wps[i]? = some orig →
        out[i]? = some (locked_WayPoint d as
          (snap_to_others d (drag_others wps i) p tol).1
          (snap_to_others d (drag_others wps i) p tol).2
          orig.alt orig.name orig.desc orig.legtype tol)) ∧
      ((∀ q ∈ drag_others wps i, ¬ d p q < tol) →
        snap_to_others d (drag_others wps i) p tol = p) ∧
      (snap_to_others d (drag_others wps i) p tol = p ∨
        snap_to_others d (drag_others wps i) p tol ∈ drag_others wps i) := by
  rcases ho : wps[i]? with _ | orig
  · exact absurd ho (by simp [List.getElem?_eq_some_iff]; omega)
  · refine ⟨wps.set i (locked_WayPoint d as
      (snap_to_others d (drag_others wps i) p tol).1
      (snap_to_others d (drag_others wps i) p tol).2
      orig.alt orig.name orig.desc orig.legtype tol), ?_, ?_, ?_, ?_, ?_, ?_⟩
    · simp [drag_update, ho]
    · simp
    · intro j hj
      exact List.getElem?_set_ne (fun hc => hj hc.symm)
    · intro orig' ho'
      have : orig' = orig := (Option.some_injective _ ho').symm
      subst this
      exact List.getElem?_set_self hi
    · exact snap_to_others_eq_of_far d tol (drag_others wps i) p
    · exact snap_to_others_mem d tol (drag_others wps i) p

/-- Witness for C5's amended theorem: a concrete two-waypoint route. -/
theorem C5_drag_update_spec_witness :
    ∃ out, drag_update dSq airportsTeamX
        [⟨0, 0, 500, "P", "", "transit"⟩, ⟨5, 5, 600, "Q", "", "transit"⟩]
        0 (3, 3) 10 = some out ∧
      out.length = ([⟨0, 0, 500, "P", "", "transit"⟩,
                     ⟨5, 5, 600, "Q", "", "transit"⟩] : List WayPoint).length ∧
      (∀ j, j ≠ 0 → out[j]? =
        ([⟨0, 0, 500, "P", "", "transit"⟩, ⟨5, 5, 600, "Q", "", "transit"⟩] :
          List WayPoint)[j]?) ∧
      (∀ orig, ([⟨0, 0, 500, "P", "", "transit"⟩, ⟨5, 5, 600, "Q", "", "transit"⟩] :
          List WayPoint)[0]? = some orig →
        out[0]? = some (locked_WayPoint dSq airportsTeamX
          (snap_to_others dSq (drag_others
            [⟨0, 0, 500, "P", "", "transit"⟩, ⟨5, 5, 600, "Q", "", "transit"⟩] 0)
            (3, 3) 10).1
          (snap_to_others dSq (drag_others
            [⟨0, 0, 500, "P", "", "transit"⟩, ⟨5, 5, 600, "Q", "", "transit"⟩] 0)
            (3, 3) 10).2
          orig.alt orig.name orig.desc orig.legtype 10)) ∧
      ((∀ q ∈ drag_others
          [⟨0, 0, 500, "P", "", "transit"⟩, ⟨5, 5, 600, "Q", "", "transit"⟩] 0,
          ¬ dSq (3, 3) q < 10) →
        snap_to_others dSq (drag_others
          [⟨0, 0, 500, "P", "", "transit"⟩, ⟨5, 5, 600, "Q", "", "transit"⟩] 0)
          (3, 3) 10 = (3, 3)) ∧
      (snap_to_others dSq (drag_others
          [⟨0, 0, 500, "P", "", "transit"⟩, ⟨5, 5, 600, "Q", "", "transit"⟩] 0)
          (3, 3) 10 = (3, 3) ∨
        snap_to_others dSq (drag_others
          [⟨0, 0, 500, "P", "", "transit"⟩, ⟨5, 5, 600, "Q", "", "transit"⟩] 0)
          (3, 3) 10 ∈ drag_others
          [⟨0, 0, 500, "P", "", "transit"⟩, ⟨5, 5, 600, "Q", "", "transit"⟩] 0) :=
  C5_drag_update_spec dSq airportsTeamX
    [⟨0, 0, 500, "P", "", "transit"⟩, ⟨5, 5, 600, "Q", "", "transit"⟩]
    0 (3, 3) 10 (by simp)

/-- A second concrete stand-in metric (taxicab distance), used to probe
the snap tolerance with linearly spaced distances. -/
def dLin (p q : Pt) : ℚ := |p.1 - q.1| + |p.2 - q.2|

/-- Counterexample to C5 as stated, in two parts.  (a) A drag update
does NOT always carry the original waypoint's name/description/leg-type:
dragging the only waypoint onto CRAN replaces them with the airport's
canonical `"CRAN"`, `""`, `"transit"`.  (b) The snap to other waypoints
does NOT use a tolerance tighter than the airport-lock tolerance: there
is no `t < wplock = 10` such that snapping to a sole other waypoint
occurs exactly when its distance is below `t` — the code snaps at every
distance strictly below 10 itself. -/
theorem C5_counterexample :
    (drag_update dSq airportsTeamX [⟨5, 5, 700, "B", "dd", "science"⟩]
        0 (-616667/1000000, 520722/10000) 10 =
      some [⟨-616667/1000000, 520722/10000, 358, "CRAN", "", "transit"⟩] ∧
      ("CRAN" : String) ≠ "B" ∧ ("" : String) ≠ "dd" ∧
      ("transit" : String) ≠ "science") ∧
    ¬ ∃ t : ℚ, t < 10 ∧ ∀ x : ℚ, 0 ≤ x →
      (snap_to_others dLin [((x, 0) : Pt)] (0, 0) 10 = (x, 0) ↔
        dLin (0, 0) (x, 0) < t) := by
  constructor
  · have hdo : drag_others [⟨5, 5, 700, "B", "dd", "science"⟩] 0 = [] := rfl
    have hsnap : snap_to_others dSq
        (drag_others [⟨5, 5, 700, "B", "dd", "science"⟩] 0)
        (-616667/1000000, 520722/10000) 10 = (-616667/1000000, 520722/10000) := by
      rw [hdo]; rfl
    have hnear : dSq (WayPoint.pt ⟨-616667/1000000, 520722/10000, 700, "B", "dd", "science"⟩)
        (Airport.pos ⟨"CRAN", -616667/1000000, 520722/10000, 358⟩) < 10 := by
      norm_num [dSq, WayPoint.pt, Airport.pos]
    have hn : is_near_airport dSq airportsTeamX
        ⟨-616667/1000000, 520722/10000, 700, "B", "dd", "science"⟩ 10 = some "CRAN" := by
      simp [is_near_airport, airportsTeamX, hnear]
    have hne : ("CRAN" : String) ≠ "" := by decide
    refine ⟨?_, by decide, by decide, by decide⟩
    rw [drag_update.eq_def]
    simp only [List.getElem?_cons_zero, hsnap]
    simp only [locked_WayPoint]
    rw [lock_WayPoint.eq_def, hn]
    simp [hne, airports_lookup, airportsTeamX, WayPoint_from_airport]
  · rintro ⟨t, ht10, hall⟩
    set x : ℚ := (max t 0 + 10) / 2 with hxdef
    have hmax0 : (0 : ℚ) ≤ max t 0 := le_max_right t 0
    have hmaxt : t ≤ max t 0 := le_max_left t 0
    have hmaxlt : max t 0 < 10 := max_lt ht10 (by norm_num)
    have hx0 : 0 ≤ x := by rw [hxdef]; linarith
    have hxlt : x < 10 := by rw [hxdef]; linarith
    have htx : t < x := by rw [hxdef]; linarith
    have hd : dLin (0, 0) ((x, 0) : Pt) = x := by
      simp only [dLin]
      rw [zero_sub, abs_neg, abs_of_nonneg hx0]
      simp
    have hsnap : snap_to_others dLin [((x, 0) : Pt)] (0, 0) 10 = (x, 0) := by
      simp only [snap_to_others, List.foldl]
      rw [if_pos (by rw [hd]; exact hxlt)]
    have hlt : dLin (0, 0) ((x, 0) : Pt) < t := (hall x hx0).mp hsnap
    rw [hd] at hlt
    linarith

/-! ## Relabeling (gui.py `relabel_waypoints`) -/

/-- gui.py:466-482 `relabel_waypoints`, one step per waypoint in order:
if the waypoint is near a registered airport (`is not None` — tolerance
`wplock`) it takes the airport code; otherwise, if it is near an earlier
waypoint (tolerance `wplock/100`, checked against the already-relabelled
prefix, whose names have been updated in place) it takes that waypoint's
(new) name; otherwise it takes the next alphabet character prefixed to
the route name and the counter advances.  An exhausted alphabet raises
`IndexError` (modelled as `none`); the prefix index returned by
`is_near_other_waypoints` is always in range, the dead branch is also
`none`. -/
def relabel_go (d : Pt → Pt → ℚ) (as : List Airport) (routeName : String)
    (tol : ℚ) : List WayPoint → List WayPoint → Nat → Option (List WayPoint)
  | done, [], _ => some done
  | done, wp :: rest, i =>
    match is_near_airport d as wp tol with
    | some a => relabel_go d as routeName tol (done ++ [{wp with name := a}]) rest i
    | none =>
      match is_near_other_waypoints d wp done (tol / 100) with
      | some j =>
        match done[j]? with
        | some prev =>
          relabel_go d as routeName tol (done ++ [{wp with name := prev.name}]) rest i
        | none => none
      | none =>
        match labsList.get? i with
        | some ch =>
          relabel_go d as routeName tol
            (done ++ [{wp with name := String.singleton ch ++ routeName}]) rest (i + 1)
        | none => none

/-- The whole relabel pass starts with an empty prefix and counter 0. -/
def relabel_waypoints (d : Pt → Pt → ℚ) (as : List Airport)
    (routeName : String) (tol : ℚ) (wps : List WayPoint) : Option (List WayPoint) :=
  relabel_go d as routeName tol [] wps 0

/-- A waypoint gets a fresh alphabet label during relabeling iff it is
neither near a registered airport nor near a waypoint of the preceding
prefix (at the finer tolerance `wplock/100`). -/
def isFresh (d : Pt → Pt → ℚ) (as : List Airport) (tol : ℚ)
    (done : List WayPoint) (wp : WayPoint) : Bool :=
  (is_near_airport d as wp tol).isNone &&
    (is_near_other_waypoints d wp done (tol / 100)).isNone

/-- Number of fresh labels consumed by a list of waypoints processed
after the given prefix. -/
def freshCountPre (d : Pt → Pt → ℚ) (as : List Airport) (tol : ℚ) :
    List WayPoint → List WayPoint → Nat
  | _, [] => 0
  | done, wp :: rest =>
    (if isFresh d as tol done wp then 1 else 0) +
      freshCountPre d as tol (done ++ [wp]) rest

theorem near_others_congr (d : Pt → Pt → ℚ) (wp : WayPoint) (tol : ℚ) :
    ∀ xs ys : List WayPoint, xs.map WayPoint.pt = ys.map WayPoint.pt →
      is_near_other_waypoints d wp xs tol = is_near_other_waypoints d wp ys tol := by
  intro xs
  induction xs with
  | nil =>
    intro ys h
    cases ys with
    | nil => rfl
    | cons y ys' => simp at h
  | cons x xs' ih =>
    intro ys h
    cases ys with
    | nil => simp at h
    | cons y ys' =>
      simp only [List.map_cons, List.cons.injEq] at h
      obtain ⟨hpt, htl⟩ := h
      simp only [is_near_other_waypoints, hpt, ih ys' htl]

theorem isFresh_congr (d : Pt → Pt → ℚ) (as : List Airport) (tol : ℚ)
    (wp : WayPoint) (xs ys : List WayPoint)
    (h : xs.map WayPoint.pt = ys.map WayPoint.pt) :
    isFresh d as tol xs wp = isFresh d as tol ys wp := by
  simp only [isFresh]
  rw [near_others_congr d wp (tol / 100) xs ys h]

theorem freshCountPre_congr (d : Pt → Pt → ℚ) (as : List Airport) (tol : ℚ) :
    ∀ (rest xs ys : List WayPoint), xs.map WayPoint.pt = ys.map WayPoint.pt →
      freshCountPre d as tol xs rest = freshCountPre d as tol ys rest := by
  intro rest
  induction rest with
  | nil => intro xs ys _; rfl
  | cons wp rest' ih =>
    intro xs ys h
    simp only [freshCountPre]
    rw [isFresh_congr d as tol wp xs ys h, ih (xs ++ [wp]) (ys ++ [wp]) (by simp [h])]

theorem relabel_go_spec (d : Pt → Pt → ℚ) (as : List Airport)
    (routeName : String) (tol : ℚ) :
    ∀ (rest done : List WayPoint) (i : Nat) (out : List WayPoint),
      relabel_go d as routeName tol done rest i = some out →
      ∃ tail, out = done ++ tail ∧ tail.length = rest.length ∧
        ∀ k, ∀ hk : k < rest.length, ∃ hk2 : k < tail.length,
          (tail.get ⟨k, hk2⟩).lon = (rest.get ⟨k, hk⟩).lon ∧
          (tail.get ⟨k, hk2⟩).lat = (rest.get ⟨k, hk⟩).lat ∧
          (tail.get ⟨k, hk2⟩).alt = (rest.get ⟨k, hk⟩).alt ∧
          (tail.get ⟨k, hk2⟩).desc = (rest.get ⟨k, hk⟩).desc ∧
          (tail.get ⟨k, hk2⟩).legtype = (rest.get ⟨k, hk⟩).legtype ∧
          (isFresh d as tol (done ++ rest.take k) (rest.get ⟨k, hk⟩) = true →
            ∃ ch, labsList.get? (i + freshCountPre d as tol done (rest.take k)) = some ch ∧
              (tail.get ⟨k, hk2⟩).name = String.singleton ch ++ routeName) := by
  intro rest
  induction rest with
  | nil =>
    intro done i out h
    have hout : done = out := by simpa [relabel_go] using h
    exact ⟨[], by simp [hout.symm], rfl, fun k hk => absurd hk (by simp)⟩
  | cons wp rest' ih =>
    intro done i out h
    -- Identify the branch taken and the processed head waypoint.
    have hstep : ∃ wp' : WayPoint, ∃ i' : Nat,
        wp'.lon = wp.lon ∧ wp'.lat = wp.lat ∧ wp'.alt = wp.alt ∧
        wp'.desc = wp.desc ∧ wp'.legtype = wp.legtype ∧
        relabel_go d as routeName tol (done ++ [wp']) rest' i' = some out ∧
        ((isFresh d as tol done wp = false ∧ i' = i) ∨
         (isFresh d as tol done wp = true ∧ i' = i + 1 ∧
          ∃ ch, labsList.get? i = some ch ∧
            wp'.name = String.singleton ch ++ routeName)) := by
      rcases hA : is_near_airport d as wp tol with _ | a
      · rcases hO : is_near_other_waypoints d wp done (tol / 100) with _ | j
        · rcases hch : labsList.get? i with _ | ch
          · rw [relabel_go.eq_def] at h
            simp only [hA, hO, hch] at h
            exact Option.noConfusion h
          · rw [relabel_go.eq_def] at h
            simp only [hA, hO, hch] at h
            refine ⟨{wp with name := String.singleton ch ++ routeName}, i + 1,
              rfl, rfl, rfl, rfl, rfl, h, Or.inr ⟨?_, rfl, ch, rfl, rfl⟩⟩
            simp [isFresh, hA, hO]
        · rcases hprev : done[j]? with _ | prev
          · rw [relabel_go.eq_def] at h
            simp only [hA, hO, hprev] at h
            exact Option.noConfusion h
          · rw [relabel_go.eq_def] at h
            simp only [hA, hO, hprev] at h
            refine ⟨{wp with name := prev.name}, i,
              rfl, rfl, rfl, rfl, rfl, h, Or.inl ⟨?_, rfl⟩⟩
            simp [isFresh, hA, hO]
      · rw [relabel_go.eq_def] at h
        simp only [hA] at h
        refine ⟨{wp with name := a}, i, rfl, rfl, rfl, rfl, rfl, h, Or.inl ⟨?_, rfl⟩⟩
        simp [isFresh, hA]
    rcases hstep with ⟨wp', i', hlon, hlat, halt, hdesc, hleg, hrec, hbranch⟩
    rcases ih (done ++ [wp']) i' out hrec with ⟨tail', hout, hlen, hspec⟩
    have hpteq : wp'.pt = wp.pt := by
      simp [WayPoint.pt, hlon, hlat]
    refine ⟨wp' :: tail', by simpa using hout, by simpa using hlen, ?_⟩
    intro k hk
    cases k with
    | zero =>
      refine ⟨by simp, hlon, hlat, halt, hdesc, hleg, ?_⟩
      intro hf
      simp only [List.take_zero, List.append_nil, List.get_cons_zero] at hf ⊢
      rcases hbranch with ⟨hfalse, _⟩ | ⟨_, _, ch, hch, hname⟩
      · have hf0 : isFresh d as tol done wp = true := by
          have hw : (wp :: rest').get ⟨0, hk⟩ = wp := rfl
          rwa [hw] at hf
        exact absurd hf0 (by simp [hfalse])
      · exact ⟨ch, by simpa [freshCountPre] using hch, hname⟩
    | succ k' =>
      have hk' : k' < rest'.length := Nat.lt_of_succ_lt_succ hk
      rcases hspec k' hk' with ⟨hk2', hl, hla, hal, hde, hle, hfr⟩
      refine ⟨by simpa using Nat.succ_lt_succ hk2', by simpa using hl,
        by simpa using hla, by simpa using hal, by simpa using hde,
        by simpa using hle, ?_⟩
      intro hf
      have hmapeq :
          ((done ++ [wp']) ++ rest'.take k').map WayPoint.pt =
          (done ++ (wp :: rest').take (k' + 1)).map WayPoint.pt := by
        simp [List.take_succ_cons, hpteq]
      have hf' : isFresh d as tol ((done ++ [wp']) ++ rest'.take k')
          (rest'.get ⟨k', hk'⟩) = true := by
        rw [isFresh_congr d as tol _ _ _ hmapeq]
        simpa using hf
      rcases hfr hf' with ⟨ch, hch, hname⟩
      refine ⟨ch, ?_, by simpa using hname⟩
      have hcount : i' + freshCountPre d as tol (done ++ [wp']) (rest'.take k') =
          i + freshCountPre d as tol done ((wp :: rest').take (k' + 1)) := by
        have hfc : freshCountPre d as tol (done ++ [wp']) (rest'.take k') =
            freshCountPre d as tol (done ++ [wp]) (rest'.take k') :=
          freshCountPre_congr d as tol _ _ _ (by simp [hpteq])
        rw [List.take_succ_cons]
        simp only [freshCountPre]
        rcases hbranch with ⟨hfalse, hieq⟩ | ⟨htrue, hieq, _⟩
        · rw [hfc, hieq, hfalse]
          simp
        · rw [hfc, hieq, htrue]
          simp
          omega
      rw [← hcount]
      exact hch

/-- C7 (amended): in the Append/Insert path the alphabet symbol chosen
for the new waypoint's name is the one at index equal to the count of
waypoints in the route that are not within the airport-lock tolerance of
any registered airport (`n_unlocked`); in RelabelAll, the symbol given
to a freshly named waypoint at position `k` is the one at index equal to
the count of EARLIER waypoints that are neither airport-locked nor
within the finer tolerance (`wplock/100`) of an earlier waypoint
(`freshCountPre`) — so airport-locked waypoints never consume alphabet
slots in either path, but in RelabelAll waypoints co-located with an
earlier waypoint do not consume slots either. -/
theorem C7_naming_slots (d : Pt → Pt → ℚ) (as : List Airport)
    (routeName : String) (tol : ℚ) (wps out : List WayPoint)
    (hrel : relabel_waypoints d as routeName tol wps = some out)
    (h36 : n_unlocked d as wps tol < 36) :
    (∃ ch, labsList.get? (n_unlocked d as wps tol) = some ch ∧
      new_wpname d as routeName wps tol = some (String.singleton ch ++ routeName)) ∧
    out.length = wps.length ∧
    (∀ k, ∀ hk : k < wps.length, ∃ hk2 : k < out.length,
      isFresh d as tol (wps.take k) (wps.get ⟨k, hk⟩) = true →
        ∃ ch, labsList.get? (freshCountPre d as tol [] (wps.take k)) = some ch ∧
          (out.get ⟨k, hk2⟩).name = String.singleton ch ++ routeName) := by
  refine ⟨?_, ?_, ?_⟩
  · have hlen : n_unlocked d as wps tol < labsList.length := by
      have h : labsList.length = 36 := by decide
      omega
    refine ⟨labsList.get ⟨n_unlocked d as wps tol, hlen⟩,
      List.get?_eq_get hlen, ?_⟩
    rw [new_wpname, List.get?_eq_get hlen]
    rfl
  · rcases relabel_go_spec d as routeName tol wps [] 0 out hrel with
      ⟨tail, hout, hlen, _⟩
    simp only [List.nil_append] at hout
    rw [hout, hlen]
  · rcases relabel_go_spec d as routeName tol wps [] 0 out hrel with
      ⟨tail, hout, hlen, hspec⟩
    simp only [List.nil_append] at hout
    subst hout
    intro k hk
    rcases hspec k hk with ⟨hk2, _, _, _, _, _, hfr⟩
    refine ⟨hk2, ?_⟩
    intro hf
    rcases hfr (by simpa using hf) with ⟨ch, hch, hname⟩
    exact ⟨ch, by simpa using hch, hname⟩

/-- Witness for C7: a one-waypoint route away from all airports; relabel
renames it to `'A' + routeName` and the Append-path symbol index is 1
(one unlocked waypoint). -/
theorem C7_naming_slots_witness :
    (∃ ch, labsList.get?
        (n_unlocked dSq airportsTeamX [⟨0, 0, 0, "Z", "", "transit"⟩] 10) = some ch ∧
      new_wpname dSq airportsTeamX "X" [⟨0, 0, 0, "Z", "", "transit"⟩] 10 =
        some (String.singleton ch ++ "X")) ∧
    ([⟨0, 0, 0, "AX", "", "transit"⟩] : List WayPoint).length =
      ([⟨0, 0, 0, "Z", "", "transit"⟩] : List WayPoint).length ∧
    (∀ k, ∀ hk : k < ([⟨0, 0, 0, "Z", "", "transit"⟩] : List WayPoint).length,
      ∃ hk2 : k < ([⟨0, 0, 0, "AX", "", "transit"⟩] : List WayPoint).length,
      isFresh dSq airportsTeamX 10
          (([⟨0, 0, 0, "Z", "", "transit"⟩] : List WayPoint).take k)
          (([⟨0, 0, 0, "Z", "", "transit"⟩] : List WayPoint).get ⟨k, hk⟩) = true →
        ∃ ch, labsList.get? (freshCountPre dSq airportsTeamX 10 []
            (([⟨0, 0, 0, "Z", "", "transit"⟩] : List WayPoint).take k)) = some ch ∧
          (([⟨0, 0, 0, "AX", "", "transit"⟩] : List WayPoint).get ⟨k, hk2⟩).name =
            String.singleton ch ++ "X") := by
  have h1 : ¬ dSq (WayPoint.pt ⟨0, 0, 0, "Z", "", "transit"⟩)
      (Airport.pos ⟨"CRAN", -616667/1000000, 520722/10000, 358⟩) < 10 := by
    norm_num [dSq, WayPoint.pt, Airport.pos]
  have h2 : ¬ dSq (WayPoint.pt ⟨0, 0, 0, "Z", "", "transit"⟩)
      (Airport.pos ⟨"INN", 11343889/1000000, 47260278/1000000, 1906⟩) < 10 := by
    norm_num [dSq, WayPoint.pt, Airport.pos]
  have hfarZ : is_near_airport dSq airportsTeamX
      ⟨0, 0, 0, "Z", "", "transit"⟩ 10 = none := by
    simp [is_near_airport, airportsTeamX, h1, h2]
  have hrel : relabel_waypoints dSq airportsTeamX "X" 10
      [⟨0, 0, 0, "Z", "", "transit"⟩] = some [⟨0, 0, 0, "AX", "", "transit"⟩] := by
    rw [relabel_waypoints, relabel_go.eq_def]
    simp only [hfarZ]
    rfl
  have h36 : n_unlocked dSq airportsTeamX [⟨0, 0, 0, "Z", "", "transit"⟩] 10 < 36 := by
    simp [n_unlocked, List.countP_cons, hfarZ]
  exact C7_naming_slots dSq airportsTeamX "X" 10
    [⟨0, 0, 0, "Z", "", "transit"⟩] [⟨0, 0, 0, "AX", "", "transit"⟩] hrel h36

/-- Counterexample to C7 as stated: relabel the route
`[P (0,0), Q (0,0), R (5,5)]` (no waypoint near an airport, tolerance
10, finer tolerance 10/100).  `Q` is co-located with `P` so it takes
`P`'s label instead of consuming a slot; `R` therefore gets symbol
index 1 (`'B'`), not the index 2 (`'C'`) demanded by "count of waypoints
in the route not within the airport-lock tolerance of any airport"
(2 such waypoints precede `R`; 3 counting the whole route). -/
theorem C7_counterexample :
    relabel_waypoints dSq airportsTeamX "X" 10
        [⟨0, 0, 500, "P", "", "transit"⟩, ⟨0, 0, 600, "Q", "", "science"⟩,
         ⟨5, 5, 700, "R", "", "transit"⟩] =
      some [⟨0, 0, 500, "AX", "", "transit"⟩, ⟨0, 0, 600, "AX", "", "science"⟩,
            ⟨5, 5, 700, "BX", "", "transit"⟩] ∧
    List.countP (fun wp => (is_near_airport dSq airportsTeamX wp 10).isNone)
        [⟨0, 0, 500, "P", "", "transit"⟩, ⟨0, 0, 600, "Q", "", "science"⟩] = 2 ∧
    labsList.get? 2 = some 'C' ∧
    ("BX" : String) ≠ String.singleton 'C' ++ "X" := by
  have hc1 : ¬ dSq ((0 : ℚ), (0 : ℚ))
      (Airport.pos ⟨"CRAN", -616667/1000000, 520722/10000, 358⟩) < 10 := by
    norm_num [dSq, Airport.pos]
  have hc2 : ¬ dSq ((0 : ℚ), (0 : ℚ))
      (Airport.pos ⟨"INN", 11343889/1000000, 47260278/1000000, 1906⟩) < 10 := by
    norm_num [dSq, Airport.pos]
  have hc3 : ¬ dSq ((5 : ℚ), (5 : ℚ))
      (Airport.pos ⟨"CRAN", -616667/1000000, 520722/10000, 358⟩) < 10 := by
    norm_num [dSq, Airport.pos]
  have hc4 : ¬ dSq ((5 : ℚ), (5 : ℚ))
      (Airport.pos ⟨"INN", 11343889/1000000, 47260278/1000000, 1906⟩) < 10 := by
    norm_num [dSq, Airport.pos]
  have hP : is_near_airport dSq airportsTeamX ⟨0, 0, 500, "P", "", "transit"⟩ 10 = none := by
    simp only [is_near_airport, airportsTeamX, WayPoint.pt]
    rw [if_neg hc1, if_neg hc2]
  have hQ : is_near_airport dSq airportsTeamX ⟨0, 0, 600, "Q", "", "science"⟩ 10 = none := by
    simp only [is_near_airport, airportsTeamX, WayPoint.pt]
    rw [if_neg hc1, if_neg hc2]
  have hR : is_near_airport dSq airportsTeamX ⟨5, 5, 700, "R", "", "transit"⟩ 10 = none := by
    simp only [is_near_airport, airportsTeamX, WayPoint.pt]
    rw [if_neg hc3, if_neg hc4]
  have hQnear : dSq (WayPoint.pt ⟨0, 0, 600, "Q", "", "science"⟩)
      (WayPoint.pt ⟨0, 0, 500, "AX", "", "transit"⟩) < 10 / 100 := by
    norm_num [dSq, WayPoint.pt]
  have hO1 : is_near_other_waypoints dSq ⟨0, 0, 600, "Q", "", "science"⟩
      [⟨0, 0, 500, "AX", "", "transit"⟩] (10 / 100) = some 0 := by
    simp [is_near_other_waypoints, hQnear]
  have hRfar1 : ¬ dSq (WayPoint.pt ⟨5, 5, 700, "R", "", "transit"⟩)
      (WayPoint.pt ⟨0, 0, 500, "AX", "", "transit"⟩) < 10 / 100 := by
    norm_num [dSq, WayPoint.pt]
  have hRfar2 : ¬ dSq (WayPoint.pt ⟨5, 5, 700, "R", "", "transit"⟩)
      (WayPoint.pt ⟨0, 0, 600, "AX", "", "science"⟩) < 10 / 100 := by
    norm_num [dSq, WayPoint.pt]
  have hO2 : is_near_other_waypoints dSq ⟨5, 5, 700, "R", "", "transit"⟩
      [⟨0, 0, 500, "AX", "", "transit"⟩, ⟨0, 0, 600, "AX", "", "science"⟩]
      (10 / 100) = none := by
    simp [is_near_other_waypoints, hRfar1, hRfar2]
  have hsingA : String.singleton 'A' ++ "X" = "AX" := rfl
  have hsingB : String.singleton 'B' ++ "X" = "BX" := rfl
  refine ⟨?_, ?_, rfl, by decide⟩
  · rw [relabel_waypoints]
    rw [relabel_go.eq_def]
    simp only [hP, is_near_other_waypoints, labsList]
    norm_num [hsingA]
    rw [relabel_go.eq_def]
    simp only [hQ, hO1]
    norm_num
    rw [relabel_go.eq_def]
    simp only [hR, hO2, labsList]
    norm_num [hsingB]
    rw [relabel_go.eq_def]
  · simp [List.countP_cons, hP, hQ]

/-! ## Canonical text serialization (flightdef.py `__repr__`,
`WayPoint_from_repr`, `loaddat`)

Strings are manipulated as `List Char`.  `str.strip()` removes leading
and trailing whitespace; `str.split(sep)` splits on every occurrence of
the separator. -/

/-- Whitespace characters stripped by Python `str.strip()` (the ones
that can occur here). -/
def isSpaceChar (c : Char) : Bool :=
  c = ' ' || c = '\t' || c = '\n' || c = '\r'

/-- Python `s.split(sep)` for a one-character separator. -/
def splitOnChar (sep : Char) : List Char → List (List Char)
  | [] => [[]]
  | c :: cs =>
    let r := splitOnChar sep cs
    if c = sep then [] :: r
    else
      match r with
      | [] => [[c]]
      | f :: fs => (c :: f) :: fs

/-- Join fields with a one-character separator (inverse of the split). -/
def joinWith (sep : Char) : List (List Char) → List Char
  | [] => []
  | [f] => f
  | f :: fs => f ++ sep :: joinWith sep fs

/-- Python `s.strip()` (only whitespace characters occur in the data). -/
def stripChars (s : List Char) : List Char :=
  ((s.dropWhile isSpaceChar).reverse.dropWhile isSpaceChar).reverse

theorem splitOnChar_ne_nil (sep : Char) : ∀ s : List Char, splitOnChar sep s ≠ [] := by
  intro s
  induction s with
  | nil => simp [splitOnChar]
  | cons c cs ih =>
    simp only [splitOnChar]
    by_cases h : c = sep
    · simp [h]
    · simp only [if_neg h]
      rcases hr : splitOnChar sep cs with _ | ⟨f, fs⟩
      · simp
      · simp

theorem splitOnChar_no_sep (sep : Char) :
    ∀ s : List Char, sep ∉ s → splitOnChar sep s = [s] := by
  intro s
  induction s with
  | nil => intro _; rfl
  | cons c cs ih =>
    intro h
    have hc : c ≠ sep := fun hc => h (hc ▸ List.mem_cons_self c cs)
    have hcs : sep ∉ cs := fun hm => h (List.mem_cons_of_mem _ hm)
    simp only [splitOnChar, if_neg hc, ih hcs]

theorem splitOnChar_append (sep : Char) :
    ∀ (f t : List Char), sep ∉ f →
      splitOnChar sep (f ++ sep :: t) = f :: splitOnChar sep t := by
  intro f
  induction f with
  | nil =>
    intro t _
    simp [splitOnChar]
  | cons c cs ih =>
    intro t h
    have hc : c ≠ sep := fun hc => h (hc ▸ List.mem_cons_self c cs)
    have hcs : sep ∉ cs := fun hm => h (List.mem_cons_of_mem _ hm)
    simp only [List.cons_append, splitOnChar, if_neg hc, List.append_eq]
    rw [ih t hcs]

theorem splitOnChar_joinWith (sep : Char) :
    ∀ fs : List (List Char), fs ≠ [] → (∀ f ∈ fs, sep ∉ f) →
      splitOnChar sep (joinWith sep fs) = fs := by
  intro fs
  induction fs with
  | nil => intro h _; exact absurd rfl h
  | cons f fs' ih =>
    intro _ hall
    cases fs' with
    | nil =>
      simpa [joinWith] using
        splitOnChar_no_sep sep f (hall f (List.mem_cons_self f []))
    | cons g gs =>
      have hjoin : joinWith sep (f :: g :: gs) = f ++ sep :: joinWith sep (g :: gs) := rfl
      rw [hjoin, splitOnChar_append sep f _ (hall f (List.mem_cons_self f _)),
        ih (by simp) (fun x hx => hall x (List.mem_cons_of_mem _ hx))]

theorem dropWhile_all_false {p : Char → Bool} :
    ∀ s : List Char, (∀ c ∈ s, p c = false) → s.dropWhile p = s := by
  intro s h
  cases s with
  | nil => rfl
  | cons c cs =>
    have hc := h c (List.mem_cons_self c cs)
    simp [List.dropWhile, hc]

theorem stripChars_all_nonspace (s : List Char)
    (h : ∀ c ∈ s, isSpaceChar c = false) : stripChars s = s := by
  unfold stripChars
  rw [dropWhile_all_false s h,
    dropWhile_all_false s.reverse (fun c hc => h c (List.mem_reverse.mp hc)),
    List.reverse_reverse]

theorem dropWhile_replicate_space (n : Nat) (s : List Char) :
    (List.replicate n ' ' ++ s).dropWhile isSpaceChar = s.dropWhile isSpaceChar := by
  induction n with
  | zero => simp
  | succ n ih => simpa [List.replicate_succ, List.dropWhile] using ih

theorem stripChars_pad_left (n : Nat) (s : List Char) :
    stripChars (List.replicate n ' ' ++ s) = stripChars s := by
  unfold stripChars
  rw [dropWhile_replicate_space]

theorem stripChars_cons_space (s : List Char) :
    stripChars (' ' :: s) = stripChars s := by
  have h : (' ' :: s) = List.replicate 1 ' ' ++ s := by simp [List.replicate]
  rw [h, stripChars_pad_left]

theorem stripChars_pad_right (n : Nat) (s : List Char) :
    stripChars (s ++ List.replicate n ' ') = stripChars s := by
  unfold stripChars
  rcases hu : s.dropWhile isSpaceChar with _ | ⟨c, u⟩
  · have h2 : (s ++ List.replicate n ' ').dropWhile isSpaceChar = [] := by
      rw [List.dropWhile_eq_nil_iff]
      intro a ha
      rcases List.mem_append.mp ha with h | h
      · exact List.dropWhile_eq_nil_iff.mp hu a h
      · have ha' : a = ' ' := List.eq_of_mem_replicate h
        simp [ha', isSpaceChar]
    rw [h2]
  · have h2 : (s ++ List.replicate n ' ').dropWhile isSpaceChar =
        (c :: u) ++ List.replicate n ' ' := by
      rw [List.dropWhile_append, hu]
      rfl
    rw [h2, List.reverse_append, List.reverse_replicate]
    rw [dropWhile_replicate_space]

/-! ### Decimal digits -/

/-- The character of a decimal digit. -/
def digitToChar (d : Nat) : Char := Char.ofNat (48 + d)

/-- The digit of a character (valid on `'0'`-`'9'`). -/
def charToDigit (c : Char) : Nat := c.toNat - 48

/-- Decimal digit characters. -/
def isDigitChar (c : Char) : Bool := ('0' ≤ c) && (c ≤ '9')

/-- Decimal representation of a natural number, most significant digit
first, `"0"` for zero. -/
def natToChars (n : Nat) : List Char :=
  if n = 0 then ['0'] else ((Nat.digits 10 n).reverse.map digitToChar)

/-- Value of a most-significant-first digit string ([] ↦ 0). -/
def charsNatVal (s : List Char) : Nat :=
  Nat.ofDigits 10 ((s.map charToDigit).reverse)

theorem charToDigit_digitToChar : ∀ d : Nat, d < 10 →
    charToDigit (digitToChar d) = d := by decide

theorem digitToChar_is_digit : ∀ d : Nat, d < 10 →
    isDigitChar (digitToChar d) = true := by decide

theorem digitToChar_props : ∀ d : Nat, d < 10 →
    isSpaceChar (digitToChar d) = false ∧ digitToChar d ≠ ',' ∧
    digitToChar d ≠ '\n' ∧ digitToChar d ≠ '.' := by decide

theorem map_id_of_mem {α : Type} (f : α → α) :
    ∀ l : List α, (∀ a ∈ l, f a = a) → l.map f = l := by
  intro l
  induction l with
  | nil => intro _; rfl
  | cons a l ih =>
    intro h
    rw [List.map_cons, h a (List.mem_cons_self a l),
      ih (fun x hx => h x (List.mem_cons_of_mem _ hx))]

theorem ofDigits_replicate_zero : ∀ k : Nat,
    Nat.ofDigits 10 (List.replicate k (0 : ℕ)) = 0 := by
  intro k
  induction k with
  | zero => rfl
  | succ m ih => simp [List.replicate_succ, Nat.ofDigits, ih]

theorem natToChars_ne_nil (n : Nat) : natToChars n ≠ [] := by
  unfold natToChars
  by_cases h : n = 0
  · simp [h]
  · simp only [if_neg h]
    intro hc
    have h2 : (Nat.digits 10 n).reverse = [] := List.map_eq_nil_iff.mp hc
    have h3 : Nat.digits 10 n ≠ [] := Nat.digits_ne_nil_iff_ne_zero.mpr h
    exact h3 (by simpa using h2)

theorem natToChars_digits (n : Nat) :
    ∀ c ∈ natToChars n, isDigitChar c = true := by
  intro c hc
  unfold natToChars at hc
  by_cases h : n = 0
  · simp only [h, if_pos rfl] at hc
    rcases List.mem_singleton.mp hc with rfl
    decide
  · simp only [if_neg h, List.mem_map, List.mem_reverse] at hc
    rcases hc with ⟨d, hd, rfl⟩
    exact digitToChar_is_digit d (Nat.digits_lt_base (by norm_num) hd)

theorem natToChars_props (n : Nat) :
    ∀ c ∈ natToChars n, isSpaceChar c = false ∧ c ≠ ',' ∧ c ≠ '\n' ∧ c ≠ '.' := by
  intro c hc
  unfold natToChars at hc
  by_cases h : n = 0
  · simp only [h, if_pos rfl] at hc
    rcases List.mem_singleton.mp hc with rfl
    decide
  · simp only [if_neg h, List.mem_map, List.mem_reverse] at hc
    rcases hc with ⟨d, hd, rfl⟩
    exact digitToChar_props d (Nat.digits_lt_base (by norm_num) hd)

theorem charsNatVal_natToChars (n : Nat) : charsNatVal (natToChars n) = n := by
  unfold charsNatVal natToChars
  by_cases h : n = 0
  · simp [h, charToDigit, Nat.ofDigits]
  · simp only [if_neg h, List.map_map]
    have hmap : (Nat.digits 10 n).reverse.map (charToDigit ∘ digitToChar) =
        (Nat.digits 10 n).reverse := by
      apply map_id_of_mem
      intro d hd
      exact charToDigit_digitToChar d
        (Nat.digits_lt_base (by norm_num) (List.mem_reverse.mp hd))
    rw [hmap, List.reverse_reverse, Nat.ofDigits_digits]

theorem charsNatVal_pad_zeros (k : Nat) (s : List Char) :
    charsNatVal (List.replicate k '0' ++ s) = charsNatVal s := by
  unfold charsNatVal
  rw [List.map_append, List.reverse_append]
  have hrep : (List.replicate k '0').map charToDigit = List.replicate k 0 := by
    induction k with
    | zero => rfl
    | succ m ih => simp [List.replicate_succ, ih, charToDigit]
  rw [hrep, List.reverse_replicate, Nat.ofDigits_append]
  simp [ofDigits_replicate_zero k]

/-- Round half to even, as Python's float formatting does on exact
values. -/
def rne (q : ℚ) : ℤ :=
  if q - ⌊q⌋ < 1/2 then ⌊q⌋
  else if 1/2 < q - ⌊q⌋ then ⌊q⌋ + 1
  else if 2 ∣ ⌊q⌋ then ⌊q⌋ else ⌊q⌋ + 1

theorem rne_abs_le (q : ℚ) : |(rne q : ℚ) - q| ≤ 1/2 := by
  have h0 : (⌊q⌋ : ℚ) ≤ q := Int.floor_le q
  have h1 : q < ⌊q⌋ + 1 := Int.lt_floor_add_one q
  unfold rne
  split_ifs with hlt hgt hev
  · rw [abs_le]; constructor <;> linarith
  · rw [abs_le]; push_cast; constructor <;> linarith
  · rw [abs_le]; constructor <;> linarith
  · rw [abs_le]; push_cast; constructor <;> linarith

theorem digits_len_le_of_lt_pow {n k : Nat} (h : n < 10 ^ k) :
    (Nat.digits 10 n).length ≤ k := by
  by_cases hn : n = 0
  · simp [hn]
  · by_contra hlen
    push_neg at hlen
    have h1 : 10 ^ (Nat.digits 10 n).length ≤ 10 * n :=
      Nat.base_pow_length_digits_le 10 n (by norm_num) hn
    have h2 : 10 ^ (k + 1) ≤ 10 ^ (Nat.digits 10 n).length :=
      Nat.pow_le_pow_right (by norm_num) hlen
    have h3 : 10 ^ (k + 1) ≤ 10 * n := le_trans h2 h1
    rw [pow_succ] at h3
    set K := 10 ^ k
    omega

theorem natToChars_len_le {n k : Nat} (hk : 0 < k) (h : n < 10 ^ k) :
    (natToChars n).length ≤ k := by
  unfold natToChars
  by_cases hn : n = 0
  · simpa [hn] using hk
  · simpa [if_neg hn] using digits_len_le_of_lt_pow h

/-! ### Fixed-point formatting and parsing -/

/-- Left padding to a minimum width (Python right-justification for
numbers; also used with `'0'` for the fractional digits). -/
def padLeftWith (c : Char) (w : Nat) (s : List Char) : List Char :=
  List.replicate (w - s.length) c ++ s

/-- Python `'{: w.pf}'.format(q)` / `'{:w.pf}'.format(q)` on our exact
rationals: round to `prec` decimals (half to even), render with sign
(`-`, or a space when the space flag is set, as in `' 7.3f'`), a `'.'`
and exactly `prec` fractional digits when `prec > 0`, and pad on the
left with spaces to the minimum width.  (Python formats the sign of the
rounded float, so a negative value rounding to `-0.0` keeps its minus
sign; with exact rationals a zero result is unsigned — the parsed value
is identical.) -/
def fmtFixed (spaceFlag : Bool) (width prec : Nat) (q : ℚ) : List Char :=
  let n : ℤ := rne (q * 10 ^ prec)
  let m : Nat := n.natAbs
  let sign : List Char := if n < 0 then ['-'] else if spaceFlag then [' '] else []
  let core : List Char :=
    natToChars (m / 10 ^ prec) ++
      (if prec = 0 then [] else '.' :: padLeftWith '0' prec (natToChars (m % 10 ^ prec)))
  padLeftWith ' ' width (sign ++ core)

/-- Are all characters decimal digits? -/
def allDigits (s : List Char) : Bool := s.all isDigitChar

/-- Python `float()` on an unsigned fixed-point literal (`"12"`,
`"12.5"`, `"12."`, `".5"`): split on `'.'`, digits on both sides. -/
def parseUnsigned (s : List Char) : Option ℚ :=
  match splitOnChar '.' s with
  | [ip] =>
    if ip = [] then none
    else if allDigits ip then some ((charsNatVal ip : ℚ)) else none
  | [ip, fp] =>
    if ip = [] && fp = [] then none
    else if allDigits ip && allDigits fp then
      some ((charsNatVal ip : ℚ) + (charsNatVal fp : ℚ) / 10 ^ fp.length)
    else none
  | _ => none

/-- Python `float()` on an optionally `'-'`-signed fixed-point literal. -/
def parseRat (s : List Char) : Option ℚ :=
  if s.head? = some '-' then (parseUnsigned s.tail).map (fun q => -q)
  else parseUnsigned s

theorem padLeftWith_zero_digits (p : Nat) (m : Nat) :
    ∀ c ∈ padLeftWith '0' p (natToChars m),
      isDigitChar c = true ∧ isSpaceChar c = false ∧ c ≠ ',' ∧ c ≠ '\n' ∧ c ≠ '.' ∧ c ≠ '-' := by
  intro c hc
  rcases List.mem_append.mp hc with h | h
  · have : c = '0' := List.eq_of_mem_replicate h
    subst this
    decide
  · exact ⟨natToChars_digits m c h,
      (natToChars_props m c h).1, (natToChars_props m c h).2.1,
      (natToChars_props m c h).2.2.1, (natToChars_props m c h).2.2.2, by
        have hd := natToChars_digits m c h
        intro hcontra
        subst hcontra
        exact absurd hd (by decide)⟩

theorem allDigits_natToChars (m : Nat) : allDigits (natToChars m) = true := by
  unfold allDigits
  rw [List.all_eq_true]
  exact natToChars_digits m

theorem allDigits_padLeft (p m : Nat) :
    allDigits (padLeftWith '0' p (natToChars m)) = true := by
  unfold allDigits
  rw [List.all_eq_true]
  exact fun c hc => (padLeftWith_zero_digits p m c hc).1

theorem charsNatVal_padLeft (p m : Nat) :
    charsNatVal (padLeftWith '0' p (natToChars m)) = m := by
  unfold padLeftWith
  rw [charsNatVal_pad_zeros, charsNatVal_natToChars]

theorem padLeft_zero_length {p m : Nat} (hp : 0 < p) (h : m < 10 ^ p) :
    (padLeftWith '0' p (natToChars m)).length = p := by
  unfold padLeftWith
  have hle := natToChars_len_le hp h
  simp [List.length_replicate]
  omega

theorem parseUnsigned_core (p m : Nat) :
    parseUnsigned (natToChars (m / 10 ^ p) ++
      (if p = 0 then [] else '.' :: padLeftWith '0' p (natToChars (m % 10 ^ p)))) =
    some ((m : ℚ) / 10 ^ p) := by
  by_cases hp : p = 0
  · subst hp
    have hstep : (natToChars (m / 10 ^ 0) ++
        (if (0 : Nat) = 0 then []
         else '.' :: padLeftWith '0' 0 (natToChars (m % 10 ^ 0)))) = natToChars m := by
      simp
    rw [hstep]
    have hsplit : splitOnChar '.' (natToChars m) = [natToChars m] :=
      splitOnChar_no_sep '.' _ (fun hmem => (natToChars_props m '.' hmem).2.2.2 rfl)
    rw [parseUnsigned, hsplit]
    simp [natToChars_ne_nil m, allDigits_natToChars m, charsNatVal_natToChars m]
  · have hp0 : 0 < p := Nat.pos_of_ne_zero hp
    simp only [if_neg hp]
    have hmlt : m % 10 ^ p < 10 ^ p := Nat.mod_lt _ (by positivity)
    have hdot1 : '.' ∉ natToChars (m / 10 ^ p) :=
      fun hmem => (natToChars_props _ '.' hmem).2.2.2 rfl
    have hdot2 : '.' ∉ padLeftWith '0' p (natToChars (m % 10 ^ p)) :=
      fun hmem => (padLeftWith_zero_digits p _ '.' hmem).2.2.2.2.1 rfl
    have hsplit : splitOnChar '.' (natToChars (m / 10 ^ p) ++
        '.' :: padLeftWith '0' p (natToChars (m % 10 ^ p))) =
        [natToChars (m / 10 ^ p), padLeftWith '0' p (natToChars (m % 10 ^ p))] := by
      rw [splitOnChar_append '.' _ _ hdot1, splitOnChar_no_sep '.' _ hdot2]
    rw [parseUnsigned, hsplit]
    have hne : natToChars (m / 10 ^ p) ≠ [] := natToChars_ne_nil _
    have h1 : (decide (natToChars (m / 10 ^ p) = []) &&
        decide (padLeftWith '0' p (natToChars (m % 10 ^ p)) = [])) = false := by
      simp [hne]
    have h2 : (allDigits (natToChars (m / 10 ^ p)) &&
        allDigits (padLeftWith '0' p (natToChars (m % 10 ^ p)))) = true := by
      simp [allDigits_natToChars, allDigits_padLeft]
    simp only [h1, h2, Bool.false_eq_true, if_false, if_true]
    rw [charsNatVal_natToChars, charsNatVal_padLeft, padLeft_zero_length hp0 hmlt]
    congr 1
    have hmod := Nat.div_add_mod m (10 ^ p)
    have hcast : (10 : ℚ) ^ p * ((m / 10 ^ p : ℕ) : ℚ) +
        ((m % 10 ^ p : ℕ) : ℚ) = (m : ℚ) := by
      exact_mod_cast congrArg (fun x : ℕ => (x : ℚ)) hmod
    have hpow : (10 : ℚ) ^ p ≠ 0 := by positivity
    field_simp
    linarith [hcast]

theorem core_ne_nil (p m : Nat) :
    natToChars (m / 10 ^ p) ++
      (if p = 0 then [] else '.' :: padLeftWith '0' p (natToChars (m % 10 ^ p))) ≠ [] := by
  intro hc
  exact natToChars_ne_nil _ (List.append_eq_nil.mp hc).1

theorem core_chars (p m : Nat) :
    ∀ c ∈ natToChars (m / 10 ^ p) ++
      (if p = 0 then [] else '.' :: padLeftWith '0' p (natToChars (m % 10 ^ p))),
      isSpaceChar c = false ∧ c ≠ '-' ∧ c ≠ ',' ∧ c ≠ '\n' := by
  intro c hc
  rcases List.mem_append.mp hc with h | h
  · refine ⟨(natToChars_props _ c h).1, ?_, (natToChars_props _ c h).2.1,
      (natToChars_props _ c h).2.2.1⟩
    intro hcontra
    subst hcontra
    exact absurd (natToChars_digits _ _ h) (by decide)
  · by_cases hp : p = 0
    · simp [hp] at h
    · simp only [if_neg hp] at h
      rcases List.mem_cons.mp h with rfl | h2
      · exact ⟨by decide, by decide, by decide, by decide⟩
      · exact ⟨(padLeftWith_zero_digits _ _ c h2).2.1,
          (padLeftWith_zero_digits _ _ c h2).2.2.2.2.2,
          (padLeftWith_zero_digits _ _ c h2).2.2.1,
          (padLeftWith_zero_digits _ _ c h2).2.2.2.1⟩

theorem parseRat_strip_fmtFixed (sf : Bool) (w p : Nat) (q : ℚ) :
    parseRat (stripChars (fmtFixed sf w p q)) =
      some ((rne (q * 10 ^ p) : ℚ) / 10 ^ p) := by
  have hfmt : fmtFixed sf w p q = List.replicate
      (w - ((if rne (q * 10 ^ p) < 0 then ['-'] else if sf then [' '] else []) ++
        (natToChars ((rne (q * 10 ^ p)).natAbs / 10 ^ p) ++
          (if p = 0 then []
           else '.' :: padLeftWith '0' p
             (natToChars ((rne (q * 10 ^ p)).natAbs % 10 ^ p))))).length) ' ' ++
      ((if rne (q * 10 ^ p) < 0 then ['-'] else if sf then [' '] else []) ++
        (natToChars ((rne (q * 10 ^ p)).natAbs / 10 ^ p) ++
          (if p = 0 then []
           else '.' :: padLeftWith '0' p
             (natToChars ((rne (q * 10 ^ p)).natAbs % 10 ^ p))))) := rfl
  set n : ℤ := rne (q * 10 ^ p) with hn
  set m : Nat := n.natAbs with hm
  set core : List Char := natToChars (m / 10 ^ p) ++
      (if p = 0 then [] else '.' :: padLeftWith '0' p (natToChars (m % 10 ^ p)))
    with hcore
  rw [hfmt, stripChars_pad_left]
  obtain ⟨c0, cs0, hc0⟩ := List.exists_cons_of_ne_nil (core_ne_nil p m)
  have hc0' : core = c0 :: cs0 := by rw [hcore]; exact hc0
  have hc0mem : c0 ∈ core := by rw [hc0']; exact List.mem_cons_self _ _
  have hstripcore : stripChars core = core :=
    stripChars_all_nonspace core (fun c hc => (core_chars p m c hc).1)
  by_cases hneg : n < 0
  · simp only [if_pos hneg]
    have hstrip : stripChars ('-' :: core) = '-' :: core := by
      apply stripChars_all_nonspace
      intro c hc
      rcases List.mem_cons.mp hc with rfl | hc2
      · decide
      · exact (core_chars p m c hc2).1
    have hstrip' : stripChars (['-'] ++ core) = '-' :: core := by
      simpa using hstrip
    rw [hstrip']
    rw [parseRat]
    simp only [List.head?_cons, if_pos rfl, List.tail_cons]
    rw [parseUnsigned_core p m]
    have hcast : (n : ℚ) = -(m : ℚ) := by
      have h1 : (m : ℤ) = -n := Int.ofNat_natAbs_of_nonpos (le_of_lt hneg)
      have h2 : ((m : ℤ) : ℚ) = ((-n : ℤ) : ℚ) := by rw [h1]
      push_cast at h2
      linarith
    rw [hcast]
    simp [neg_div]
  · simp only [if_neg hneg]
    have hcast : (n : ℚ) = (m : ℚ) := by
      have h1 : (m : ℤ) = n := Int.natAbs_of_nonneg (not_lt.mp hneg)
      have h2 : ((m : ℤ) : ℚ) = ((n : ℤ) : ℚ) := by rw [h1]
      push_cast at h2
      linarith
    have hparse_core : parseRat core = some ((m : ℚ) / 10 ^ p) := by
      rw [parseRat]
      have hhead : core.head? = some c0 := by rw [hc0']; rfl
      have hc0ne : ¬ core.head? = some '-' := by
        rw [hhead]
        intro hcontra
        exact (core_chars p m c0 hc0mem).2.1 (Option.some_injective _ hcontra)
      rw [if_neg hc0ne]
      exact parseUnsigned_core p m
    by_cases hsf : sf
    · simp only [if_pos hsf]
      have hstrip : stripChars ([' '] ++ core) = core := by
        have h1 : ([' '] ++ core) = ' ' :: core := rfl
        rw [h1, stripChars_cons_space, hstripcore]
      rw [hstrip, hparse_core, hcast]
    · simp only [if_neg hsf]
      have hstrip : stripChars ([] ++ core) = core := by
        simpa using hstripcore
      rw [hstrip, hparse_core, hcast]

/-- The rounded value is within half an ulp of the original. -/
theorem roundPrec_abs_le (p : Nat) (q : ℚ) :
    |(rne (q * 10 ^ p) : ℚ) / 10 ^ p - q| ≤ 1 / (2 * 10 ^ p) := by
  have hpow : (0 : ℚ) < 10 ^ p := by positivity
  have h := rne_abs_le (q * 10 ^ p)
  have heq : (rne (q * 10 ^ p) : ℚ) / 10 ^ p - q =
      ((rne (q * 10 ^ p) : ℚ) - q * 10 ^ p) / 10 ^ p := by
    field_simp
    ring
  rw [heq, abs_div, abs_of_pos hpow]
  rw [div_le_div_iff hpow (by positivity)]
  calc |(rne (q * 10 ^ p) : ℚ) - q * 10 ^ p| * (2 * 10 ^ p) ≤
      (1 / 2) * (2 * 10 ^ p) := by
        apply mul_le_mul_of_nonneg_right h
        positivity
    _ = 1 * 10 ^ p := by ring

/-! ### WayPoint serialization -/

/-- The `'{0:6}'` field: `self.name[:6]`, left-justified in width 6
(shorter names are padded on the right with spaces). -/
def nameField (s : List Char) : List Char :=
  s.take 6 ++ List.replicate (6 - (s.take 6).length) ' '

/-- `WayPoint.__repr__` (flightdef.py:39-44):
`'{0:6}, {2: 7.3f}, {3: 6.3f}, {4:5.0f}, {5}, {1}'.format(name[:6],
desc, lon, lat, alt, legtype)` — fields joined by `", "` in the order
name, lon, lat, alt, legtype, desc. -/
def WayPoint_repr (wp : WayPoint) : List Char :=
  joinWith ',' [nameField wp.name.toList,
                ' ' :: fmtFixed true 7 3 wp.lon,
                ' ' :: fmtFixed true 6 3 wp.lat,
                ' ' :: fmtFixed false 5 0 wp.alt,
                ' ' :: wp.legtype.toList,
                ' ' :: wp.desc.toList]

/-- `WayPoint_from_repr` (flightdef.py:64-68):
`vals = [a.strip() for a in s.split(',')]; WayPoint(float(vals[1]),
float(vals[2]), alt=float(vals[3]), name=vals[0], desc=vals[5],
legtype=vals[4])`.  Fewer than six fields raises `IndexError`, a
non-numeric coordinate raises `ValueError` (both modelled as `none`);
fields beyond the sixth are ignored. -/
def WayPoint_from_repr (s : List Char) : Option WayPoint :=
  match (splitOnChar ',' s).map stripChars with
  | v0 :: v1 :: v2 :: v3 :: v4 :: v5 :: _ =>
    match parseRat v1, parseRat v2, parseRat v3 with
    | some lon, some lat, some alt =>
      some ⟨lon, lat, alt, String.mk v0, String.mk v5, String.mk v4⟩
    | _, _, _ => none
  | _ => none

theorem fmtFixed_chars (sf : Bool) (w p : Nat) (q : ℚ) :
    ∀ c ∈ fmtFixed sf w p q, c ≠ ',' ∧ c ≠ '\n' := by
  intro c hc
  unfold fmtFixed at hc
  rcases List.mem_append.mp hc with h | h
  · have : c = ' ' := List.eq_of_mem_replicate h
    subst this
    exact ⟨by decide, by decide⟩
  · rcases List.mem_append.mp h with h2 | h2
    · split at h2
      · rcases List.mem_singleton.mp h2 with rfl
        exact ⟨by decide, by decide⟩
      · split at h2
        · rcases List.mem_singleton.mp h2 with rfl
          exact ⟨by decide, by decide⟩
        · cases h2
    · exact ⟨(core_chars p _ c h2).2.2.1, (core_chars p _ c h2).2.2.2⟩

theorem nameField_no_comma {s : List Char} (h : ',' ∉ s.take 6) :
    ',' ∉ nameField s := by
  intro hc
  rcases List.mem_append.mp hc with h2 | h2
  · exact h h2
  · exact absurd (List.eq_of_mem_replicate h2) (by decide)

theorem splitOnChar_WayPoint_repr (wp : WayPoint)
    (hname : ',' ∉ wp.name.toList.take 6)
    (hleg : ',' ∉ wp.legtype.toList)
    (hdesc : ',' ∉ wp.desc.toList) :
    splitOnChar ',' (WayPoint_repr wp) =
      [nameField wp.name.toList,
       ' ' :: fmtFixed true 7 3 wp.lon,
       ' ' :: fmtFixed true 6 3 wp.lat,
       ' ' :: fmtFixed false 5 0 wp.alt,
       ' ' :: wp.legtype.toList,
       ' ' :: wp.desc.toList] := by
  apply splitOnChar_joinWith
  · simp
  · intro f hf
    simp only [List.mem_cons, List.mem_singleton] at hf
    rcases hf with rfl | rfl | rfl | rfl | rfl | rfl | hf
    · exact nameField_no_comma hname
    · intro hc
      rcases List.mem_cons.mp hc with h | h
      · exact absurd h.symm (by decide)
      · exact (fmtFixed_chars true 7 3 wp.lon ',' h).1 rfl
    · intro hc
      rcases List.mem_cons.mp hc with h | h
      · exact absurd h.symm (by decide)
      · exact (fmtFixed_chars true 6 3 wp.lat ',' h).1 rfl
    · intro hc
      rcases List.mem_cons.mp hc with h | h
      · exact absurd h.symm (by decide)
      · exact (fmtFixed_chars false 5 0 wp.alt ',' h).1 rfl
    · intro hc
      rcases List.mem_cons.mp hc with h | h
      · exact absurd h.symm (by decide)
      · exact hleg h
    · intro hc
      rcases List.mem_cons.mp hc with h | h
      · exact absurd h.symm (by decide)
      · exact hdesc h
    · cases hf

/-- Parsing the canonical line of a waypoint: coordinates come back
rounded to the format's precision, the name comes back as the stripped
6-character truncation, description and leg-type come back stripped. -/
theorem from_repr_WayPoint_repr (wp : WayPoint)
    (hname : ',' ∉ wp.name.toList.take 6)
    (hleg : ',' ∉ wp.legtype.toList)
    (hdesc : ',' ∉ wp.desc.toList) :
    WayPoint_from_repr (WayPoint_repr wp) =
      some ⟨(rne (wp.lon * 10 ^ 3) : ℚ) / 10 ^ 3,
            (rne (wp.lat * 10 ^ 3) : ℚ) / 10 ^ 3,
            (rne (wp.alt * 10 ^ 0) : ℚ) / 10 ^ 0,
            String.mk (stripChars (wp.name.toList.take 6)),
            String.mk (stripChars wp.desc.toList),
            String.mk (stripChars wp.legtype.toList)⟩ := by
  rw [WayPoint_from_repr, splitOnChar_WayPoint_repr wp hname hleg hdesc]
  simp only [List.map_cons, List.map_nil, stripChars_cons_space]
  have hstripname : stripChars (nameField wp.name.toList) =
      stripChars (wp.name.toList.take 6) := by
    unfold nameField
    exact stripChars_pad_right _ _
  rw [hstripname, parseRat_strip_fmtFixed true 7 3 wp.lon,
    parseRat_strip_fmtFixed true 6 3 wp.lat,
    parseRat_strip_fmtFixed false 5 0 wp.alt]

/-- The documented name alphabet: "A single word (using A-Z and 0-9
only)" (WayPoint docstring). -/
def isNameChar (c : Char) : Bool :=
  ('A' ≤ c && c ≤ 'Z') || ('0' ≤ c && c ≤ '9')

theorem nameChar_props {c : Char} (h : isNameChar c = true) :
    isSpaceChar c = false ∧ c ≠ ',' ∧ c ≠ '\n' := by
  simp only [isNameChar, Bool.or_eq_true, Bool.and_eq_true, decide_eq_true_eq] at h
  refine ⟨?_, ?_, ?_⟩
  · rw [Bool.eq_false_iff]
    intro hs
    simp only [isSpaceChar, Bool.or_eq_true, decide_eq_true_eq] at hs
    rcases hs with ((rfl | rfl) | rfl) | rfl <;>
      rcases h with ⟨h1, h2⟩ | ⟨h1, h2⟩ <;> revert h1 h2 <;> decide
  · intro hc
    subst hc
    rcases h with ⟨h1, h2⟩ | ⟨h1, h2⟩ <;> revert h1 h2 <;> decide
  · intro hc
    subst hc
    rcases h with ⟨h1, h2⟩ | ⟨h1, h2⟩ <;> revert h1 h2 <;> decide

theorem stringMk_inj {a b : List Char} (h : String.mk a = String.mk b) : a = b := by
  injection h

theorem take_eq_self_iff_len (l : List Char) : l.take 6 = l ↔ l.length ≤ 6 := by
  constructor
  · intro h
    have := congrArg List.length h
    simp only [List.length_take] at this
    omega
  · exact List.take_of_length_le

/-- C10: the canonical serialization writes only the first 6 characters
of the name, left-justified and padded with spaces which parsing strips;
for names over the documented alphabet (A-Z, 0-9), parsing the
serialized waypoint yields exactly the first 6 characters of the name,
and the round trip preserves the name exactly iff it has at most 6
characters.  (Leg-type and description must be comma-free for the
six-field split, as the serialization format requires.) -/
theorem C10_name_truncation (wp : WayPoint)
    (hnc : ∀ c ∈ wp.name.toList, isNameChar c = true)
    (hleg : ',' ∉ wp.legtype.toList)
    (hdesc : ',' ∉ wp.desc.toList) :
    (∃ rest, WayPoint_repr wp =
      (wp.name.toList.take 6 ++
        List.replicate (6 - (wp.name.toList.take 6).length) ' ') ++ rest) ∧
    ∃ wp' : WayPoint, WayPoint_from_repr (WayPoint_repr wp) = some wp' ∧
      wp'.name.toList = wp.name.toList.take 6 ∧
      (wp'.name = wp.name ↔ wp.name.toList.length ≤ 6) := by
  have hname6 : ∀ c ∈ wp.name.toList.take 6, isNameChar c = true :=
    fun c hc => hnc c (List.mem_of_mem_take hc)
  have hcomma : ',' ∉ wp.name.toList.take 6 :=
    fun hc => (nameChar_props (hname6 ',' hc)).2.1 rfl
  have hstrip : stripChars (wp.name.toList.take 6) = wp.name.toList.take 6 :=
    stripChars_all_nonspace _ (fun c hc => (nameChar_props (hname6 c hc)).1)
  refine ⟨⟨_, rfl⟩, _, from_repr_WayPoint_repr wp hcomma hleg hdesc, ?_, ?_⟩
  · show stripChars (wp.name.toList.take 6) = wp.name.toList.take 6
    exact hstrip
  · show String.mk (stripChars (wp.name.toList.take 6)) = wp.name ↔
      wp.name.toList.length ≤ 6
    rw [hstrip]
    constructor
    · intro h
      have h2 : wp.name.toList.take 6 = wp.name.toList := by
        have h3 : String.mk (wp.name.toList.take 6) = String.mk wp.name.toList := h
        exact stringMk_inj h3
      exact (take_eq_self_iff_len _).mp h2
    · intro h
      rw [List.take_of_length_le h]
      rfl

/-- Witness for C10: a concrete 5-character name. -/
theorem C10_name_truncation_witness :
    (∃ rest, WayPoint_repr ⟨1, 2, 300, "WAYPT", "ok", "transit"⟩ =
      (("WAYPT" : String).toList.take 6 ++
        List.replicate (6 - (("WAYPT" : String).toList.take 6).length) ' ') ++ rest) ∧
    ∃ wp' : WayPoint,
      WayPoint_from_repr (WayPoint_repr ⟨1, 2, 300, "WAYPT", "ok", "transit"⟩) =
        some wp' ∧
      wp'.name.toList = ("WAYPT" : String).toList.take 6 ∧
      (wp'.name = "WAYPT" ↔ ("WAYPT" : String).toList.length ≤ 6) :=
  C10_name_truncation ⟨1, 2, 300, "WAYPT", "ok", "transit"⟩
    (by decide) (by decide) (by decide)

/-! ### Route serialization (`FlightDef.__repr__` / `loaddat`) -/

/-- `FlightDef.__repr__` (flightdef.py:141-145): the route name on the
first line, then one line per waypoint, joined by `'\n'`
(`s = name; for waypoint in waypoints: s += '\n' + repr(waypoint)`). -/
def FlightDef_repr (name : String) (wps : List WayPoint) : List Char :=
  joinWith '\n' (name.toList :: wps.map WayPoint_repr)

/-- The waypoint-line loop of `loaddat`: parse each line in order, the
first failure aborting the load. -/
def parse_wp_lines : List (List Char) → Option (List WayPoint)
  | [] => some []
  | l :: ls =>
    match WayPoint_from_repr l with
    | none => none
    | some wp => (parse_wp_lines ls).map (fun ws => wp :: ws)

/-- The parsing part of `loaddat` (flightdef.py:336-351): the first line
is the route name (`f.readline()`), the remaining lines are parsed with
`WayPoint_from_repr`. -/
def loaddat (content : List Char) : Option (String × List WayPoint) :=
  match splitOnChar '\n' content with
  | [] => none
  | nameLine :: rest =>
    (parse_wp_lines rest).map (fun wps => (String.mk nameLine, wps))

/-- The parsed form of one waypoint after a serialization round trip:
coordinates rounded to the format precision, name stripped and truncated
to 6 characters, description and leg-type stripped. -/
def roundWp (wp : WayPoint) : WayPoint :=
  ⟨(rne (wp.lon * 10 ^ 3) : ℚ) / 10 ^ 3,
   (rne (wp.lat * 10 ^ 3) : ℚ) / 10 ^ 3,
   (rne (wp.alt * 10 ^ 0) : ℚ) / 10 ^ 0,
   String.mk (stripChars (wp.name.toList.take 6)),
   String.mk (stripChars wp.desc.toList),
   String.mk (stripChars wp.legtype.toList)⟩

theorem mem_joinWith {c sep : Char} :
    ∀ fs : List (List Char), c ∈ joinWith sep fs → c = sep ∨ ∃ f ∈ fs, c ∈ f := by
  intro fs
  induction fs with
  | nil => intro h; cases h
  | cons f fs ih =>
    cases fs with
    | nil =>
      intro h
      right
      exact ⟨f, List.mem_cons_self f [], h⟩
    | cons g gs =>
      intro h
      rcases List.mem_append.mp h with h1 | h1
      · right; exact ⟨f, List.mem_cons_self f _, h1⟩
      · rcases List.mem_cons.mp h1 with rfl | h2
        · left; rfl
        · rcases ih h2 with h3 | ⟨x, hx, hcx⟩
          · left; exact h3
          · right; exact ⟨x, List.mem_cons_of_mem _ hx, hcx⟩

theorem WayPoint_repr_no_newline (wp : WayPoint)
    (hname : ∀ c ∈ wp.name.toList.take 6, c ≠ '\n')
    (hleg : '\n' ∉ wp.legtype.toList)
    (hdesc : '\n' ∉ wp.desc.toList) :
    '\n' ∉ WayPoint_repr wp := by
  intro hc
  rcases mem_joinWith _ hc with h | ⟨f, hf, hcf⟩
  · exact absurd h (by decide)
  · simp only [List.mem_cons, List.mem_singleton] at hf
    rcases hf with rfl | rfl | rfl | rfl | rfl | rfl | hf
    · rcases List.mem_append.mp hcf with h2 | h2
      · exact hname '\n' h2 rfl
      · exact absurd (List.eq_of_mem_replicate h2) (by decide)
    · rcases List.mem_cons.mp hcf with h2 | h2
      · exact absurd h2 (by decide)
      · exact (fmtFixed_chars true 7 3 wp.lon '\n' h2).2 rfl
    · rcases List.mem_cons.mp hcf with h2 | h2
      · exact absurd h2 (by decide)
      · exact (fmtFixed_chars true 6 3 wp.lat '\n' h2).2 rfl
    · rcases List.mem_cons.mp hcf with h2 | h2
      · exact absurd h2 (by decide)
      · exact (fmtFixed_chars false 5 0 wp.alt '\n' h2).2 rfl
    · rcases List.mem_cons.mp hcf with h2 | h2
      · exact absurd h2 (by decide)
      · exact hleg h2
    · rcases List.mem_cons.mp hcf with h2 | h2
      · exact absurd h2 (by decide)
      · exact hdesc h2
    · cases hf

theorem parse_wp_lines_map (wps : List WayPoint)
    (h : ∀ wp ∈ wps, ',' ∉ wp.name.toList.take 6 ∧
      ',' ∉ wp.legtype.toList ∧ ',' ∉ wp.desc.toList) :
    parse_wp_lines (wps.map WayPoint_repr) = some (wps.map roundWp) := by
  induction wps with
  | nil => rfl
  | cons wp rest ih =>
    have hwp := h wp (List.mem_cons_self wp rest)
    have hfr := from_repr_WayPoint_repr wp hwp.1 hwp.2.1 hwp.2.2
    have hih := ih (fun x hx => h x (List.mem_cons_of_mem _ hx))
    simp only [List.map_cons, parse_wp_lines, hfr, hih, Option.map_some']
    rfl

/-- C3 (amended): serializing a FlightRoute and parsing it back
reproduces an equivalent waypoint sequence — same description and
leg-type (when comma/newline-free and whitespace-trimmed, as the format
requires), numeric fields equal up to the declared precision (3 decimals
for lon/lat, 0 for alt) — and the name is preserved PROVIDED it has at
most 6 characters over the documented A-Z/0-9 alphabet; longer names
come back truncated to their first 6 characters. -/
theorem C3_roundtrip (rname : String) (wps : List WayPoint)
    (hrname : '\n' ∉ rname.toList)
    (hwf : ∀ wp ∈ wps,
      (∀ c ∈ wp.name.toList, isNameChar c = true) ∧
      wp.name.toList.length ≤ 6 ∧
      (',' ∉ wp.legtype.toList ∧ '\n' ∉ wp.legtype.toList ∧
        stripChars wp.legtype.toList = wp.legtype.toList) ∧
      (',' ∉ wp.desc.toList ∧ '\n' ∉ wp.desc.toList ∧
        stripChars wp.desc.toList = wp.desc.toList)) :
    ∃ wps', loaddat (FlightDef_repr rname wps) = some (rname, wps') ∧
      wps'.length = wps.length ∧
      ∀ k, ∀ hk : k < wps.length, ∃ hk2 : k < wps'.length,
        (wps'.get ⟨k, hk2⟩).name = (wps.get ⟨k, hk⟩).name ∧
        (wps'.get ⟨k, hk2⟩).desc = (wps.get ⟨k, hk⟩).desc ∧
        (wps'.get ⟨k, hk2⟩).legtype = (wps.get ⟨k, hk⟩).legtype ∧
        |(wps'.get ⟨k, hk2⟩).lon - (wps.get ⟨k, hk⟩).lon| ≤ 1 / 2000 ∧
        |(wps'.get ⟨k, hk2⟩).lat - (wps.get ⟨k, hk⟩).lat| ≤ 1 / 2000 ∧
        |(wps'.get ⟨k, hk2⟩).alt - (wps.get ⟨k, hk⟩).alt| ≤ 1 / 2 := by
  have hnm : ∀ wp ∈ wps, ',' ∉ wp.name.toList.take 6 ∧
      ',' ∉ wp.legtype.toList ∧ ',' ∉ wp.desc.toList := by
    intro wp hwp
    obtain ⟨hn, _, hl, hd⟩ := hwf wp hwp
    exact ⟨fun hc => (nameChar_props (hn ',' (List.mem_of_mem_take hc))).2.1 rfl,
      hl.1, hd.1⟩
  have hsplit : splitOnChar '\n' (FlightDef_repr rname wps) =
      rname.toList :: wps.map WayPoint_repr := by
    unfold FlightDef_repr
    apply splitOnChar_joinWith
    · simp
    · intro f hf
      rcases List.mem_cons.mp hf with rfl | hf2
      · exact hrname
      · rcases List.mem_map.mp hf2 with ⟨wp, hwp, rfl⟩
        obtain ⟨hn, _, hl, hd⟩ := hwf wp hwp
        exact WayPoint_repr_no_newline wp
          (fun c hc => (nameChar_props (hn c (List.mem_of_mem_take hc))).2.2)
          hl.2.1 hd.2.1
  have hparse := parse_wp_lines_map wps hnm
  refine ⟨wps.map roundWp, ?_, by simp, ?_⟩
  · simp only [loaddat, hsplit, hparse, Option.map_some']
    rfl
  · intro k hk
    have hk2 : k < (wps.map roundWp).length := by simpa using hk
    refine ⟨hk2, ?_⟩
    have hget : (wps.map roundWp).get ⟨k, hk2⟩ = roundWp (wps.get ⟨k, hk⟩) := by
      simp
    obtain ⟨hn, hlen, hl, hd⟩ := hwf (wps.get ⟨k, hk⟩) (List.get_mem wps k hk)
    have hstrip : stripChars ((wps.get ⟨k, hk⟩).name.toList.take 6) =
        (wps.get ⟨k, hk⟩).name.toList.take 6 :=
      stripChars_all_nonspace _
        (fun c hc => (nameChar_props (hn c (List.mem_of_mem_take hc))).1)
    rw [hget]
    unfold roundWp
    refine ⟨?_, ?_, ?_, ?_, ?_, ?_⟩
    · show String.mk (stripChars ((wps.get ⟨k, hk⟩).name.toList.take 6)) = _
      rw [hstrip, List.take_of_length_le hlen]
      rfl
    · show String.mk (stripChars ((wps.get ⟨k, hk⟩).desc.toList)) = _
      rw [hd.2.2]
      rfl
    · show String.mk (stripChars ((wps.get ⟨k, hk⟩).legtype.toList)) = _
      rw [hl.2.2]
      rfl
    · have hb := roundPrec_abs_le 3 (wps.get ⟨k, hk⟩).lon
      norm_num at hb ⊢
      exact hb
    · have hb := roundPrec_abs_le 3 (wps.get ⟨k, hk⟩).lat
      norm_num at hb ⊢
      exact hb
    · have hb := roundPrec_abs_le 0 (wps.get ⟨k, hk⟩).alt
      norm_num at hb ⊢
      exact hb

/-- Witness for C3's amended theorem: a concrete one-waypoint route. -/
theorem C3_roundtrip_witness :
    ∃ wps', loaddat (FlightDef_repr "MMDDa"
        [⟨1, 2, 300, "WAYPT", "ok", "transit"⟩]) = some ("MMDDa", wps') ∧
      wps'.length = ([⟨1, 2, 300, "WAYPT", "ok", "transit"⟩] : List WayPoint).length ∧
      ∀ k, ∀ hk : k < ([⟨1, 2, 300, "WAYPT", "ok", "transit"⟩] : List WayPoint).length,
        ∃ hk2 : k < wps'.length,
        (wps'.get ⟨k, hk2⟩).name =
          (([⟨1, 2, 300, "WAYPT", "ok", "transit"⟩] : List WayPoint).get ⟨k, hk⟩).name ∧
        (wps'.get ⟨k, hk2⟩).desc =
          (([⟨1, 2, 300, "WAYPT", "ok", "transit"⟩] : List WayPoint).get ⟨k, hk⟩).desc ∧
        (wps'.get ⟨k, hk2⟩).legtype =
          (([⟨1, 2, 300, "WAYPT", "ok", "transit"⟩] : List WayPoint).get ⟨k, hk⟩).legtype ∧
        |(wps'.get ⟨k, hk2⟩).lon -
          (([⟨1, 2, 300, "WAYPT", "ok", "transit"⟩] : List WayPoint).get ⟨k, hk⟩).lon| ≤ 1 / 2000 ∧
        |(wps'.get ⟨k, hk2⟩).lat -
          (([⟨1, 2, 300, "WAYPT", "ok", "transit"⟩] : List WayPoint).get ⟨k, hk⟩).lat| ≤ 1 / 2000 ∧
        |(wps'.get ⟨k, hk2⟩).alt -
          (([⟨1, 2, 300, "WAYPT", "ok", "transit"⟩] : List WayPoint).get ⟨k, hk⟩).alt| ≤ 1 / 2 :=
  C3_roundtrip "MMDDa" [⟨1, 2, 300, "WAYPT", "ok", "transit"⟩]
    (by decide)
    (by
      intro wp hwp
      rcases List.mem_singleton.mp hwp with rfl
      exact ⟨by decide, by decide, ⟨by decide, by decide, by decide⟩,
        by decide, by decide, by decide⟩)

/-- Counterexample to C3 as stated: a route whose single waypoint is
named `"ABCDEFG"` (seven characters from the documented alphabet) does
not round-trip with the same name — the parsed name is the truncation
`"ABCDEF"`. -/
theorem C3_counterexample :
    (∃ wp' : WayPoint,
      loaddat (FlightDef_repr "R" [⟨1, 2, 300, "ABCDEFG", "", "transit"⟩]) =
        some ("R", [wp']) ∧ wp'.name = "ABCDEF") ∧
    ("ABCDEF" : String) ≠ "ABCDEFG" := by
  constructor
  · have hfr := from_repr_WayPoint_repr ⟨1, 2, 300, "ABCDEFG", "", "transit"⟩
      (by decide) (by decide) (by decide)
    have hnl : '\n' ∉ WayPoint_repr ⟨1, 2, 300, "ABCDEFG", "", "transit"⟩ :=
      WayPoint_repr_no_newline _ (by decide) (by decide) (by decide)
    have hsplit : splitOnChar '\n'
        (FlightDef_repr "R" [⟨1, 2, 300, "ABCDEFG", "", "transit"⟩]) =
        [("R" : String).toList,
         WayPoint_repr ⟨1, 2, 300, "ABCDEFG", "", "transit"⟩] := by
      unfold FlightDef_repr
      apply splitOnChar_joinWith _ _ (by simp)
      intro f hf
      rcases List.mem_cons.mp hf with rfl | hf2
      · decide
      · rcases List.mem_cons.mp hf2 with rfl | hf3
        · exact hnl
        · cases hf3
    have hpl : parse_wp_lines
        [WayPoint_repr ⟨1, 2, 300, "ABCDEFG", "", "transit"⟩] =
        some [⟨(rne ((1 : ℚ) * 10 ^ 3) : ℚ) / 10 ^ 3,
               (rne ((2 : ℚ) * 10 ^ 3) : ℚ) / 10 ^ 3,
               (rne ((300 : ℚ) * 10 ^ 0) : ℚ) / 10 ^ 0,
               String.mk (stripChars (("ABCDEFG" : String).toList.take 6)),
               String.mk (stripChars (("" : String).toList)),
               String.mk (stripChars (("transit" : String).toList))⟩] := by
      simp only [parse_wp_lines, hfr, Option.map_some']
    refine ⟨⟨(rne ((1 : ℚ) * 10 ^ 3) : ℚ) / 10 ^ 3,
             (rne ((2 : ℚ) * 10 ^ 3) : ℚ) / 10 ^ 3,
             (rne ((300 : ℚ) * 10 ^ 0) : ℚ) / 10 ^ 0,
             String.mk (stripChars (("ABCDEFG" : String).toList.take 6)),
             String.mk (stripChars (("" : String).toList)),
             String.mk (stripChars (("transit" : String).toList))⟩, ?_, ?_⟩
    · simp only [loaddat, hsplit, hpl, Option.map_some']
      rfl
    · show String.mk (stripChars (("ABCDEFG" : String).toList.take 6)) = "ABCDEF"
      decide
  · decide
